import Mathlib

/-!
Formal model of the `domreducer` repository's `HtmlReducer` pipeline
(`src/reducer.py`), shallow-embedded in Lean 4.

The document tree (BeautifulSoup's parse tree) is embedded as the inductive
type `Node` (elements, text nodes, comment nodes).  Attribute values are
either plain strings or token lists (`class` is a multi-valued attribute
under BeautifulSoup's html builders, so `tag["class"]` is a list of tokens).
Each pipeline stage of the Python class is translated to a function on
`List Node` (the children of the soup root); the `HtmlReducer` object itself
is the `Reducer` structure, and stages that can raise return `Except`.

The parser and the token counter are external collaborators of the program
and are taken as function parameters where needed.

Python loops of the form
`for tag in list(walk): if cond(tag): tag.decompose()/replace_with(...)`
iterate over a pre-order snapshot of the tree taken before mutation, and
every node they detach either has no element children (the two passes of
`strip_out_non_visual_nodes`) or is dropped together with its whole subtree
(`decompose` / `replace_with`), so a detachment never changes the condition
computed for a node visited later; each such loop is therefore embedded as
the equivalent one-pass top-down traversal that tests each node before
descending into its children.
-/

set_option maxRecDepth 16384

namespace DomReducer

/-- Attribute value: a plain string, or a token list (multi-valued
attributes such as `class`). -/
inductive AttrVal where
  | str (s : String)
  | list (ts : List String)
deriving DecidableEq, Repr

/-- A node of the document tree: element (tag name, ordered attributes,
ordered children), text node, or comment node. -/
inductive Node where
  | elem (name : String) (attrs : List (String × AttrVal)) (children : List Node)
  | text (s : String)
  | comment (s : String)
deriving Repr

mutual

def nodeDecEq : (a b : Node) → Decidable (a = b)
  | .elem n a cs, .elem m b ds =>
      match decEq n m, decEq a b, nodeListDecEq cs ds with
      | isTrue h1, isTrue h2, isTrue h3 => isTrue (by rw [h1, h2, h3])
      | isFalse h1, _, _ => isFalse (by intro q; injection q; contradiction)
      | _, isFalse h2, _ => isFalse (by intro q; injection q; contradiction)
      | _, _, isFalse h3 => isFalse (by intro q; injection q; contradiction)
  | .text s, .text t =>
      match decEq s t with
      | isTrue h => isTrue (by rw [h])
      | isFalse h => isFalse (by intro q; injection q; contradiction)
  | .comment s, .comment t =>
      match decEq s t with
      | isTrue h => isTrue (by rw [h])
      | isFalse h => isFalse (by intro q; injection q; contradiction)
  | .elem _ _ _, .text _ => isFalse (by intro q; cases q)
  | .elem _ _ _, .comment _ => isFalse (by intro q; cases q)
  | .text _, .elem _ _ _ => isFalse (by intro q; cases q)
  | .text _, .comment _ => isFalse (by intro q; cases q)
  | .comment _, .elem _ _ _ => isFalse (by intro q; cases q)
  | .comment _, .text _ => isFalse (by intro q; cases q)

def nodeListDecEq : (a b : List Node) → Decidable (a = b)
  | [], [] => isTrue rfl
  | [], _ :: _ => isFalse (by intro q; cases q)
  | _ :: _, [] => isFalse (by intro q; cases q)
  | c :: cs, d :: ds =>
      match nodeDecEq c d, nodeListDecEq cs ds with
      | isTrue h1, isTrue h2 => isTrue (by rw [h1, h2])
      | isFalse h1, _ => isFalse (by intro q; injection q; contradiction)
      | _, isFalse h2 => isFalse (by intro q; injection q; contradiction)

end

instance : DecidableEq Node := nodeDecEq

/-- The `HtmlReducer` object: the raw markup kept from construction, and the
optional parse tree (children of the soup root); `dom_tree = none` until
`parse_the_full_dom_into_a_dom_tree` has run. -/
structure Reducer where
  raw_html : String
  dom_tree : Option (List Node)
deriving DecidableEq, Repr

/-- Errors a pipeline run can surface: `unparsedDocument` is the
`RuntimeError` raised by `_assert_parsed`, `valueError` the `ValueError`
raised by `int()` on a non-numeric image dimension, `unknownStage` the
`AttributeError` raised by `getattr` on an unknown stage name. -/
inductive PipeError where
  | unparsedDocument
  | valueError
  | unknownStage (name : String)
deriving DecidableEq, Repr

/-! ### String helpers (Python semantics) -/

/-- Characters matched by Python's `str.split()` / `str.strip()` and by the
regex class `\s` (ASCII range). -/
def isPySpace (c : Char) : Bool :=
  c = ' ' || c = '\t' || c = '\n' || c = '\r' || c = '\x0b' || c = '\x0c'

/-- Python `str.strip()`. -/
def pyStrip (s : String) : String :=
  String.mk (((s.data.dropWhile isPySpace).reverse.dropWhile isPySpace).reverse)

/-- Python `str.rstrip()`. -/
def pyRstrip (s : String) : String :=
  String.mk ((s.data.reverse.dropWhile isPySpace).reverse)

theorem dropWhile_length_le (p : α → Bool) (l : List α) :
    (l.dropWhile p).length ≤ l.length := by
  induction l with
  | nil => simp [List.dropWhile]
  | cons a l ih =>
      simp only [List.dropWhile]
      split
      · exact Nat.le_succ_of_le ih
      · simp

/-- Python `str.split()` (split on whitespace runs, no empty words). -/
def splitOnWs : List Char → List (List Char)
  | [] => []
  | c :: cs =>
      if isPySpace c then splitOnWs cs
      else (c :: cs.takeWhile (fun x => !isPySpace x)) ::
        splitOnWs (cs.dropWhile (fun x => !isPySpace x))
termination_by cs => cs.length
decreasing_by
  all_goals simp
  exact Nat.lt_succ_of_le (dropWhile_length_le _ _)

/-- Match a literal character list at the head, returning the rest. -/
def matchLitChars : List Char → List Char → Option (List Char)
  | [], cs => some cs
  | _ :: _, [] => none
  | p :: ps, c :: cs => if c = p then matchLitChars ps cs else none

/-- Python `sep.join(parts)`. -/
def pyJoin (sep : String) : List String → String
  | [] => ""
  | x :: xs => xs.foldl (fun acc y => acc ++ sep ++ y) x

/-- Python `s.lower()` (ASCII case folding, as `str.lower` does on the
markup text handled here). -/
def pyLower (s : String) : String := String.mk (s.data.map Char.toLower)

/-- Python `s.startswith(p)`. -/
def pyStartsWith (s p : String) : Bool := (matchLitChars p.data s.data).isSome

/-- Python `" ".join(s.split())`: collapse whitespace runs to single spaces
and trim the ends. -/
def wsCollapse (s : String) : String :=
  pyJoin " " ((splitOnWs s.data).map String.mk)

/-- Python `re.sub(r"\s+", " ", s)`: every maximal whitespace run becomes a
single space (ends included). -/
def wsSubAux (prevSpace : Bool) : List Char → List Char
  | [] => []
  | c :: cs =>
      if isPySpace c then
        if prevSpace then wsSubAux true cs else ' ' :: wsSubAux true cs
      else c :: wsSubAux false cs

/-- Python `re.sub(r"\s+", " ", s)`. -/
def wsSubOne (s : String) : String := String.mk (wsSubAux false s.data)

/-- Does `display\s*:\s*<target>` match at the head of `cs`
(input already lower-cased)? -/
def dispAt (target : List Char) (cs : List Char) : Bool :=
  match matchLitChars "display".data cs with
  | none => false
  | some r1 =>
      match r1.dropWhile isPySpace with
      | ':' :: r2 => (matchLitChars target (r2.dropWhile isPySpace)).isSome
      | _ => false

/-- Search `display\s*:\s*<target>` anywhere in the character list. -/
def searchDisp (target : List Char) : List Char → Bool
  | [] => false
  | c :: cs => dispAt target (c :: cs) || searchDisp target cs

/-- Python `re.compile(r"display\s*:\s*" + target, re.I).search(s)` as a
Boolean: case-insensitive, whitespace-tolerant. -/
def styleSearch (target : String) (s : String) : Bool :=
  searchDisp target.data (pyLower s).data

/-- The `css_hidden` regex of `strip_out_non_visual_nodes`:
`display\s*:\s*none`, case-insensitive. -/
def cssHidden (s : String) : Bool := styleSearch "none" s

/-- Numeric value of a digit list (base 10). -/
def digitsVal (ds : List Char) : Nat :=
  ds.foldl (fun n c => n * 10 + (c.toNat - '0'.toNat)) 0

/-- Python `int(s)` on a string: strips whitespace, accepts an optional
sign followed by one or more digits, otherwise raises (`none`). -/
def pyInt (s : String) : Option Int :=
  let cs := ((s.data.dropWhile isPySpace).reverse.dropWhile isPySpace).reverse
  match cs with
  | [] => none
  | c :: rest =>
      let signed : Bool × List Char :=
        if c = '-' then (true, rest)
        else if c = '+' then (false, rest) else (false, c :: rest)
      if signed.2 ≠ [] ∧ signed.2.all Char.isDigit then
        some ((if signed.1 then -1 else 1) * (digitsVal signed.2 : Int))
      else none

/-- Python `str(value)` for an attribute value: a token list prints as a
Python list literal. -/
def avPyStr : AttrVal → String
  | .str s => s
  | .list ts =>
      "[" ++ pyJoin ", " (ts.map (fun t => "\x27" ++ t ++ "\x27")) ++ "]"

/-! ### Attribute and node helpers -/

/-- First value bound to key `k` (BeautifulSoup attributes are a dict, so
keys are unique in parsed trees; we model them as an ordered list). -/
def getAttr : List (String × AttrVal) → String → Option AttrVal
  | [], _ => none
  | p :: rest, k => if p.1 = k then some p.2 else getAttr rest k

/-- Python `tag.has_attr(k)`. -/
def hasAttr (a : List (String × AttrVal)) (k : String) : Bool :=
  (getAttr a k).isSome

/-- Python `tag.get(k, dflt)` rendered as a string. -/
def getStrAttr (a : List (String × AttrVal)) (k : String) (dflt : String) : String :=
  match getAttr a k with
  | some v => avPyStr v
  | none => dflt

/-- Tag name of a node (empty for non-elements). -/
def nodeName : Node → String
  | .elem n _ _ => n
  | _ => ""

/-- Children of a node (empty for non-elements). -/
def childrenOf : Node → List Node
  | .elem _ _ cs => cs
  | _ => []

/-- Attributes of a node (empty for non-elements). -/
def attrsOf : Node → List (String × AttrVal)
  | .elem _ a _ => a
  | _ => []

/-- Is the node an element? -/
def isElemB : Node → Bool
  | .elem _ _ _ => true
  | _ => false

/-- Pre-order list of all element descendants of the given forest: this is
BeautifulSoup's `find_all(True)` seen from the node whose children the list
is. -/
def elemsPre : List Node → List Node
  | [] => []
  | .elem n a cs :: rest => .elem n a cs :: (elemsPre cs ++ elemsPre rest)
  | _ :: rest => elemsPre rest

/-- The stripped text fragments yielded by `get_text(strip=True)`:
every descendant text node, stripped, empty results skipped, in document
order (BeautifulSoup's `_all_strings` excludes comments for html builders). -/
def textFragments : List Node → List String
  | [] => []
  | .text s :: rest =>
      let t := pyStrip s
      if t = "" then textFragments rest else t :: textFragments rest
  | .elem _ _ cs :: rest => textFragments cs ++ textFragments rest
  | .comment _ :: rest => textFragments rest

/-- Python `node.get_text(strip=True)`: stripped fragments joined with no
separator. -/
def getTextStrip (cs : List Node) : String := pyJoin "" (textFragments cs)

/-! ### Stage: strip_out_non_structural_nodes -/

/-- Tags decomposed unconditionally by `strip_out_non_structural_nodes`. -/
def nonStructuralTags : List String :=
  ["script", "noscript", "style", "iframe", "meta", "link"]

/-- First pass of `strip_out_non_structural_nodes`: extract every comment
node. -/
def removeComments : List Node → List Node
  | [] => []
  | .comment _ :: rest => removeComments rest
  | .elem n a cs :: rest => .elem n a (removeComments cs) :: removeComments rest
  | .text s :: rest => .text s :: removeComments rest

/-- Second pass of `strip_out_non_structural_nodes`: decompose (subtree
included) every tag in the fixed non-structural set. -/
def removeNonStructuralTags : List Node → List Node
  | [] => []
  | .elem n a cs :: rest =>
      if nonStructuralTags.contains n then removeNonStructuralTags rest
      else .elem n a (removeNonStructuralTags cs) :: removeNonStructuralTags rest
  | t :: rest => t :: removeNonStructuralTags rest

/-- Tree-level effect of `strip_out_non_structural_nodes`. -/
def stripNonStructuralList (t : List Node) : List Node :=
  removeNonStructuralTags (removeComments t)

/-! ### Stage: strip_out_non_visual_nodes -/

/-- The `hidden_attr` test of `strip_out_non_visual_nodes`: boolean `hidden`
attribute, `aria-hidden="true"`, or inline style matching
`display\s*:\s*none` (Python precedence:
`A or (B and C) or (D and E)`). -/
def isHiddenAttrs (a : List (String × AttrVal)) : Bool :=
  hasAttr a "hidden"
    || (hasAttr a "aria-hidden" && (getAttr a "aria-hidden" = some (.str "true")))
    || (hasAttr a "style" && cssHidden (getStrAttr a "style" ""))

/-- First pass: decompose every element whose `hidden_attr` test holds and
whose `find_all(True)` list (element descendants) is empty. -/
def stripHiddenList : List Node → List Node
  | [] => []
  | .elem n a cs :: rest =>
      if isHiddenAttrs a && (elemsPre cs).isEmpty then stripHiddenList rest
      else .elem n a (stripHiddenList cs) :: stripHiddenList rest
  | t :: rest => t :: stripHiddenList rest

/-- The inline decorative tags of the second pass. -/
def inlineTags : List String := ["span", "b", "i", "u"]

/-- Second pass: decompose every element with no contents at all whose tag
is one of the empty inline decorative tags. -/
def emptyInlineList : List Node → List Node
  | [] => []
  | .elem n a cs :: rest =>
      if cs.isEmpty && inlineTags.contains n then emptyInlineList rest
      else .elem n a (emptyInlineList cs) :: emptyInlineList rest
  | t :: rest => t :: emptyInlineList rest

/-- Tree-level effect of `strip_out_non_visual_nodes`: the two passes in
order. -/
def stripNonVisualList (t : List Node) : List Node :=
  emptyInlineList (stripHiddenList t)

/-! ### Stage: simplify_attributes -/

/-- The fixed attribute allow-list `_ALLOWED_ATTRS`. -/
def allowedAttrs : List String := ["id", "class", "href", "src", "alt", "title", "role"]

/-- Replace the value bound to key `k` (in place, order preserved). -/
def setAttr (a : List (String × AttrVal)) (k : String) (v : AttrVal) :
    List (String × AttrVal) :=
  a.map (fun p => if p.1 = k then (p.1, v) else p)

/-- The attributes surviving the allow-list filter of
`simplify_attributes`. -/
def simplifyKept (a : List (String × AttrVal)) : List (String × AttrVal) :=
  a.filter (fun p => allowedAttrs.contains p.1)

/-- Per-element effect of `simplify_attributes`: delete attributes outside
the allow-list, then truncate a `class` token list longer than 6 tokens to
the first 6 plus one ellipsis token.  (Under BeautifulSoup's html builders
`class` is always a token list in a parsed tree; a plain-string `class`
value is left alone.) -/
def simplifyAttrsOne (a : List (String × AttrVal)) : List (String × AttrVal) :=
  match getAttr (simplifyKept a) "class" with
  | some (.list ts) =>
      if ts.length > 6 then
        setAttr (simplifyKept a) "class" (.list (ts.take 6 ++ ["…"]))
      else simplifyKept a
  | _ => simplifyKept a

/-- Tree-level effect of `simplify_attributes` (structure preserving). -/
def simplifyAttributesList : List Node → List Node
  | [] => []
  | .elem n a cs :: rest =>
      .elem n (simplifyAttrsOne a) (simplifyAttributesList cs) :: simplifyAttributesList rest
  | t :: rest => t :: simplifyAttributesList rest

/-! ### Stage: collapse_deeply_nested_container_with_one_child -/

/-- The purely-structural container tags eligible for collapsing. -/
def collapseTags : List String := ["div", "section", "article", "span"]

/-- Number of direct element children: `find_all(True, recursive=False)`. -/
def countElemChildren (cs : List Node) : Nat := cs.countP isElemB

/-- The `while` guard of the collapse stage: exactly one element child, no
attributes, tag in the structural set. -/
def collapsePred (n : String) (a : List (String × AttrVal)) (cs : List Node) : Bool :=
  countElemChildren cs = 1 && a.isEmpty && collapseTags.contains n

/-- Tree-level effect of `collapse_deeply_nested_container_with_one_child`:
an element satisfying the guard is unwrapped (its children spliced into its
place) and the unwrap chain continues on the single element child; every
surviving element's children are processed the same way.  (The guard of a
surviving node is invariant under unwraps below it, since an unwrap replaces
one element child by exactly one element child, so the snapshot `for`-loop
of the source and this single top-down pass agree.) -/
def collapseList : List Node → List Node
  | [] => []
  | .elem n a cs :: rest =>
      if collapsePred n a cs then collapseList cs ++ collapseList rest
      else .elem n a (collapseList cs) :: collapseList rest
  | t :: rest => t :: collapseList rest

/-! ### Stage: prune_repetitive_and_boilerplate_navigation_items -/

/-- The matched container tags of the prune stage. -/
def navTags : List String := ["nav", "ul", "ol"]

/-- Normalized text fingerprint of a matched container:
`re.sub(r"\s+", " ", nav.get_text(strip=True).lower())`.  The source hashes
this string with md5; fingerprint equality in the model is equality of the
normalized text (the spec accepts hash collisions as false positives, and
md5 is modelled as injective). -/
def fpOf (cs : List Node) : String := wsSubOne (pyLower (getTextStrip cs))

/-- Seen-set update contributed by the matched elements inside a decomposed
subtree: `find_all` was computed eagerly, so the loop still iterates matched
elements that were detached with an ancestor, adds their fingerprints to the
seen set (their `decompose` is then a no-op on the live tree). -/
def collectSeen (seen : List String) : List Node → List String
  | [] => seen
  | .elem n _ cs :: rest =>
      let seen1 :=
        if navTags.contains n then
          let fp := fpOf cs
          if seen.contains fp then seen else seen ++ [fp]
        else seen
      collectSeen (collectSeen seen1 cs) rest
  | _ :: rest => collectSeen seen rest

/-- Tree-level effect of the prune stage, threading the seen-fingerprint
set in document (pre-order) order: the first matched element carrying a
fingerprint is kept, every later matched element with the same fingerprint
is decomposed in full.  Matched elements are iterated in pre-order, so every
fingerprint is computed on that element's original subtree (an earlier
decomposition can never intersect a later-visited subtree). -/
def pruneList (seen : List String) : List Node → List String × List Node
  | [] => (seen, [])
  | .elem n a cs :: rest =>
      if navTags.contains n then
        let fp := fpOf cs
        if seen.contains fp then
          let seen1 := collectSeen seen cs
          pruneList seen1 rest
        else
          let inner := pruneList (seen ++ [fp]) cs
          let outer := pruneList inner.1 rest
          (outer.1, .elem n a inner.2 :: outer.2)
      else
        let inner := pruneList seen cs
        let outer := pruneList inner.1 rest
        (outer.1, .elem n a inner.2 :: outer.2)
  | t :: rest =>
      let outer := pruneList seen rest
      (outer.1, t :: outer.2)

/-- Tree-level effect of `prune_repetitive_and_boilerplate_navigation_items`. -/
def pruneNavList (t : List Node) : List Node := (pruneList [] t).2

/-! ### Generic one-pass subtree conversion

The five `preserve_*` stages and the SVG half of the media stage share one
shape: walk the tree top-down; where a trigger holds, replace the element
(whole subtree) by a freshly built placeholder; where it does not, keep the
element and process its children (`find_all` is computed eagerly, so
elements inside a replaced subtree are iterated while detached and their
replacement does not touch the live tree). -/
def topDownConv (trig : Node → Bool) (conv : Node → Node) : List Node → List Node
  | [] => []
  | .elem n a cs :: rest =>
      if trig (.elem n a cs) then conv (.elem n a cs) :: topDownConv trig conv rest
      else .elem n a (topDownConv trig conv cs) :: topDownConv trig conv rest
  | t :: rest => t :: topDownConv trig conv rest

/-- Pipe-delimited Markdown row: `"| " + " | ".join(row) + " |"`. -/
def mdRow (row : List String) : String :=
  "| " ++ pyJoin " | " row ++ " |"

/-- Markdown grid from the padded table data: first row as header, then a
`---` separator row, then the remaining rows. -/
def mdGridLines (padded : List (List String)) (maxCols : Nat) : List String :=
  match padded with
  | [] => []
  | h :: t => mdRow h :: mdRow (List.replicate maxCols "---") :: t.map mdRow

/-- Maximum row width: `max(len(r) for r in table_data)`. -/
def maxRowLen (rows : List (List String)) : Nat :=
  rows.foldl (fun m r => max m r.length) 0

/-- Pad every row to `maxCols` with empty cells. -/
def padRows (rows : List (List String)) (maxCols : Nat) : List (List String) :=
  rows.map (fun r => r ++ List.replicate (maxCols - r.length) "")

/-- Cell text: `" ".join(cell.get_text(strip=True).split())`. -/
def cellTextOf (cell : Node) : String :=
  wsCollapse (getTextStrip (childrenOf cell))

/-! ### Stage: preserve_tables_as_markdown

In `src/reducer.py` this `def` is mis-indented (it sits at body level inside
the previous method, after its `return`, so the file as written is not even
syntactically valid Python); the embedding models the evidently intended
method.  Note that `rows` is `table.find_all("tr")`, i.e. all `tr`
descendants, and cells are all `th`/`td` descendants of a row; the
`if not table_data: continue` guard of the source can never fire once `rows`
is non-empty, because every row appends a (possibly empty) cell list, so a
table whose rows have no cells is still converted.  The `first_row_has_th`
branch and its `else` branch build identical output, so the separator row is
emitted whether or not header cells were marked. -/

/-- All `tr` element descendants of a forest, in pre-order. -/
def trsOf (cs : List Node) : List Node :=
  (elemsPre cs).filter (fun e => nodeName e = "tr")

/-- All `th`/`td` element descendants of a row. -/
def rowCells (tr : Node) : List Node :=
  (elemsPre (childrenOf tr)).filter (fun e => nodeName e = "th" || nodeName e = "td")

/-- Trigger of the table stage: a `table` element with at least one `tr`
descendant (tables with no rows are skipped by `continue`). -/
def tableTrig (nd : Node) : Bool :=
  nodeName nd = "table" && !(trsOf (childrenOf nd)).isEmpty

/-- Replacement built for a triggered table: a `<pre data-table="1">`
holding the pipe-delimited grid. -/
def tableConv (nd : Node) : Node :=
  let rows := trsOf (childrenOf nd)
  let tableData := rows.map (fun tr => (rowCells tr).map cellTextOf)
  match tableData with
  | [] => nd
  | _ :: _ =>
      let maxCols := maxRowLen tableData
      let padded := padRows tableData maxCols
      .elem "pre" [("data-table", .str "1")]
        [.text (pyJoin "\n" (mdGridLines padded maxCols))]

/-- Tree-level effect of `preserve_tables_as_markdown`. -/
def preserveTablesList (t : List Node) : List Node :=
  topDownConv tableTrig tableConv t

/-! ### Stage: preserve_deflists_as_markdown -/

/-- Lines built from the direct `dt`/`dd` element children of a `dl`. -/
def dlLines : List Node → List String
  | [] => []
  | .elem n _ cs :: rest =>
      if n = "dt" then (wsCollapse (getTextStrip cs) ++ "  ") :: dlLines rest
      else if n = "dd" then (":  " ++ wsCollapse (getTextStrip cs) ++ "  ") :: dlLines rest
      else dlLines rest
  | _ :: rest => dlLines rest

/-- Trigger of the definition-list stage: a `dl` with at least one direct
`dt`/`dd` child (empty line lists are skipped). -/
def dlTrig (nd : Node) : Bool :=
  nodeName nd = "dl" && !(dlLines (childrenOf nd)).isEmpty

/-- Replacement for a triggered `dl`: `<pre data-dl="1">` with the joined,
right-stripped line block. -/
def dlConv (nd : Node) : Node :=
  .elem "pre" [("data-dl", .str "1")]
    [.text (pyRstrip (pyJoin "\n" (dlLines (childrenOf nd))))]

/-- Tree-level effect of `preserve_deflists_as_markdown`. -/
def preserveDeflistsList (t : List Node) : List Node :=
  topDownConv dlTrig dlConv t

/-! ### Stage: preserve_lists_as_markdown -/

/-- Direct string contents of an `li`: `li.find_all(text=True,
recursive=False)` matches every direct `NavigableString` child (comments
included, since `Comment` is a `NavigableString`), joined with no
separator. -/
def liDirectText : List Node → String
  | [] => ""
  | .text s :: rest => s ++ liDirectText rest
  | .comment s :: rest => s ++ liDirectText rest
  | .elem _ _ _ :: rest => liDirectText rest

mutual

/-- The `walk_list` recursion: iterate direct `li` children (the index
counts `li` items only), rendering one line per item followed by the lines
of its direct nested `ul`/`ol` children at depth + 1. -/
def walkLines (depth : Nat) (ordered : Bool) (idx : Nat) : List Node → List String
  | [] => []
  | .elem n _ cs :: rest =>
      if n = "li" then
        let px := pyJoin "" (List.replicate depth "  ")
          ++ (if ordered then toString idx ++ ". " else "- ")
        let content := wsCollapse (pyStrip (liDirectText cs))
        ((px ++ content) :: nestedLines (depth + 1) cs)
          ++ walkLines depth ordered (idx + 1) rest
      else walkLines depth ordered idx rest
  | _ :: rest => walkLines depth ordered idx rest
termination_by l => sizeOf l

/-- Lines of the direct nested `ul`/`ol` children of an `li`. -/
def nestedLines (depth : Nat) : List Node → List String
  | [] => []
  | .elem n _ cs :: rest =>
      (if n = "ul" || n = "ol" then walkLines depth (n = "ol") 1 cs else [])
        ++ nestedLines depth rest
  | _ :: rest => nestedLines depth rest
termination_by l => sizeOf l

end

/-- Trigger of the list stage: a `ul`/`ol` whose `walk_list` line list is
non-empty (lists with no direct `li` children are skipped). -/
def listTrig (nd : Node) : Bool :=
  (nodeName nd = "ul" || nodeName nd = "ol")
    && !(walkLines 0 (nodeName nd = "ol") 1 (childrenOf nd)).isEmpty

/-- Replacement for a triggered list: `<pre data-list="1">`. -/
def listConv (nd : Node) : Node :=
  .elem "pre" [("data-list", .str "1")]
    [.text (pyJoin "\n"
      (walkLines 0 (nodeName nd = "ol") 1 (childrenOf nd)))]

/-- Tree-level effect of `preserve_lists_as_markdown`. -/
def preserveListsList (t : List Node) : List Node :=
  topDownConv listTrig listConv t

/-! ### Stage: preserve_figures_as_markdown -/

/-- First element descendant with the given tag name, in pre-order
(Python `fig.find(name)`). -/
def findDesc (nm : String) : List Node → Option Node
  | [] => none
  | .elem n a cs :: rest =>
      if n = nm then some (.elem n a cs)
      else
        match findDesc nm cs with
        | some e => some e
        | none => findDesc nm rest
  | _ :: rest => findDesc nm rest

/-- Trigger of the figure stage: a `figure` containing an `img`
(figures without an image are skipped). -/
def figTrig (nd : Node) : Bool :=
  nodeName nd = "figure" && (findDesc "img" (childrenOf nd)).isSome

/-- Caption text via `cap.get_text(" ", strip=True)`: stripped non-empty
fragments joined with single spaces. -/
def capText (cs : List Node) : String :=
  pyJoin " " (textFragments cs)

/-- Replacement for a triggered figure: `<pre data-figure="1">` holding the
Markdown image line; the caption falls back to the image's `alt` text when
the `figcaption` is missing or empty. -/
def figConv (nd : Node) : Node :=
  let cs := childrenOf nd
  let img := (findDesc "img" cs).getD (.elem "img" [] [])
  let src := pyStrip (getStrAttr (attrsOf img) "src" "")
  let alt := pyStrip (getStrAttr (attrsOf img) "alt" "")
  let caption0 :=
    match findDesc "figcaption" cs with
    | some cap => capText (childrenOf cap)
    | none => if alt ≠ "" then alt else ""
  let caption := if caption0 = "" && alt ≠ "" then alt else caption0
  .elem "pre" [("data-figure", .str "1")]
    [.text ("![" ++ caption ++ "](" ++ src ++ ")")]

/-- Tree-level effect of `preserve_figures_as_markdown`. -/
def preserveFiguresList (t : List Node) : List Node :=
  topDownConv figTrig figConv t

/-! ### Stage: preserve_css_tables_as_markdown -/

/-- Does the node's inline `style` match `display\s*:\s*<target>`?
(The pattern for `table` also matches inside `display:table-row` and
`display:table-cell` — regex search, no trailing anchor.) -/
def styleMatches (target : String) (nd : Node) : Bool :=
  hasAttr (attrsOf nd) "style" && styleSearch target (getStrAttr (attrsOf nd) "style" "")

/-- The row elements of a CSS table: every element descendant styled
`display:table-row`. -/
def cssRowsOf (cs : List Node) : List Node :=
  (elemsPre cs).filter (styleMatches "table-row")

/-- Trigger of the CSS-table stage: an element styled `display:table` with
at least one row-styled descendant. -/
def cssTableTrig (nd : Node) : Bool :=
  styleMatches "table" nd && !(cssRowsOf (childrenOf nd)).isEmpty

/-- Replacement for a triggered CSS table: cells are the direct element
children of each row styled `display:table-cell`; the grid is rendered like
the real-table stage with the first row as header. -/
def cssTableConv (nd : Node) : Node :=
  let rows := cssRowsOf (childrenOf nd)
  let tableData := rows.map (fun row =>
    ((childrenOf row).filter
      (fun c => isElemB c && styleMatches "table-cell" c)).map cellTextOf)
  match tableData with
  | [] => nd
  | _ :: _ =>
      let maxCols := maxRowLen tableData
      let padded := padRows tableData maxCols
      .elem "pre" [("data-csstable", .str "1")]
        [.text (pyJoin "\n" (mdGridLines padded maxCols))]

/-- Tree-level effect of `preserve_css_tables_as_markdown`. -/
def preserveCssTablesList (t : List Node) : List Node :=
  topDownConv cssTableTrig cssTableConv t

/-! ### Stage: reduce_large_inline_SVGs_or_images_to_lightweight_placeholders -/

/-- Trigger of the SVG pass: every `svg` element. -/
def svgTrig (nd : Node) : Bool := nodeName nd = "svg"

/-- Replacement for an `svg`: the parsed form of
`<svg data-placeholder='1' width='{w}' height='{h}'></svg>` with `w`/`h`
the original attributes defaulting to `100%` (the source builds this by
formatting and re-parsing a markup snippet; the embedding constructs the
resulting element directly). -/
def svgConv (nd : Node) : Node :=
  let w := getStrAttr (attrsOf nd) "width" "100%"
  let h := getStrAttr (attrsOf nd) "height" "100%"
  .elem "svg" [("data-placeholder", .str "1"), ("width", .str w), ("height", .str h)] []

/-- Python `int(img.get(k, 0) or 0)`: a missing attribute or an empty
string gives 0; any other non-numeric string raises `ValueError`. -/
def dimVal (a : List (String × AttrVal)) (k : String) : Except PipeError Int :=
  match getAttr a k with
  | none => .ok 0
  | some v =>
      let s := avPyStr v
      if s = "" then .ok 0
      else
        match pyInt s with
        | some i => .ok i
        | none => .error .valueError

/-- The image pass: every `img` is tested (`big_data_uri` and `big_dims`
are both always evaluated, so `int()` can raise on any image with a
non-numeric dimension string); a large image is replaced by
`<img data-placeholder='1' width='{w}' height='{h}'/>` with `auto`
defaults.  Images are visited in pre-order, matching the order in which
the source loop would raise. -/
def imgPass : List Node → Except PipeError (List Node)
  | [] => .ok []
  | .elem n a cs :: rest =>
      if n = "img" then do
        let src := getStrAttr a "src" ""
        let bigUri := pyStartsWith src "data:image" && src.length > 1500
        let w ← dimVal a "width"
        let h ← dimVal a "height"
        let bigDims := w * h > 512 * 512
        if bigUri || bigDims then
          let ws := getStrAttr a "width" "auto"
          let hs := getStrAttr a "height" "auto"
          let rest' ← imgPass rest
          return .elem "img"
            [("data-placeholder", .str "1"), ("width", .str ws), ("height", .str hs)] []
            :: rest'
        else do
          let cs' ← imgPass cs
          let rest' ← imgPass rest
          return .elem n a cs' :: rest'
      else do
        let cs' ← imgPass cs
        let rest' ← imgPass rest
        return .elem n a cs' :: rest'
  | t :: rest => do
      let rest' ← imgPass rest
      return t :: rest'

/-- Tree-level effect of the media stage: the SVG pass runs to completion,
then the image pass runs on its result. -/
def mediaStageList (t : List Node) : Except PipeError (List Node) :=
  imgPass (topDownConv svgTrig svgConv t)

/-! ### The `HtmlReducer` methods (stage wrappers with `_assert_parsed`) -/

/-- Python `parse_the_full_dom_into_a_dom_tree`: attach the external
parser's tree.  The parser collaborator is a parameter. -/
def parse_the_full_dom_into_a_dom_tree (parse : String → List Node) (r : Reducer) :
    Reducer :=
  { r with dom_tree := some (parse r.raw_html) }

/-- Lift a total tree transformation to a stage with the
`_assert_parsed` guard: the guard runs before any mutation, so an unparsed
reducer is left unchanged and the call fails. -/
def guarded (f : List Node → List Node) (r : Reducer) : Except PipeError Reducer :=
  match r.dom_tree with
  | none => .error .unparsedDocument
  | some t => .ok { r with dom_tree := some (f t) }

def strip_out_non_structural_nodes (r : Reducer) : Except PipeError Reducer :=
  guarded stripNonStructuralList r

def strip_out_non_visual_nodes (r : Reducer) : Except PipeError Reducer :=
  guarded stripNonVisualList r

def simplify_attributes (r : Reducer) : Except PipeError Reducer :=
  guarded simplifyAttributesList r

def collapse_deeply_nested_container_with_one_child (r : Reducer) :
    Except PipeError Reducer :=
  guarded collapseList r

def prune_repetitive_and_boilerplate_navigation_items (r : Reducer) :
    Except PipeError Reducer :=
  guarded pruneNavList r

/-- The media stage can itself raise `ValueError` from `int()`. -/
def reduce_large_inline_SVGs_or_images_to_lightweight_placeholders (r : Reducer) :
    Except PipeError Reducer :=
  match r.dom_tree with
  | none => .error .unparsedDocument
  | some t => do
      let t' ← mediaStageList t
      return { r with dom_tree := some t' }

def preserve_tables_as_markdown (r : Reducer) : Except PipeError Reducer :=
  guarded preserveTablesList r

def preserve_deflists_as_markdown (r : Reducer) : Except PipeError Reducer :=
  guarded preserveDeflistsList r

def preserve_lists_as_markdown (r : Reducer) : Except PipeError Reducer :=
  guarded preserveListsList r

def preserve_figures_as_markdown (r : Reducer) : Except PipeError Reducer :=
  guarded preserveFiguresList r

def preserve_css_tables_as_markdown (r : Reducer) : Except PipeError Reducer :=
  guarded preserveCssTablesList r

/-! ### The pipeline runner -/

/-- The `_DEFAULT_PIPE` stage-name list. -/
def defaultPipe : List String :=
  ["parse_the_full_dom_into_a_dom_tree",
   "strip_out_non_structural_nodes",
   "strip_out_non_visual_nodes",
   "simplify_attributes",
   "collapse_deeply_nested_container_with_one_child",
   "prune_repetitive_and_boilerplate_navigation_items",
   "reduce_large_inline_SVGs_or_images_to_lightweight_placeholders"]

/-- Stage-name dispatch: `getattr(self, name)` followed by the call; an
unknown name raises `AttributeError` at the moment it is looked up. -/
def runStage (parse : String → List Node) (name : String) (r : Reducer) :
    Except PipeError Reducer :=
  if name = "parse_the_full_dom_into_a_dom_tree" then
    .ok (parse_the_full_dom_into_a_dom_tree parse r)
  else if name = "strip_out_non_structural_nodes" then
    strip_out_non_structural_nodes r
  else if name = "strip_out_non_visual_nodes" then
    strip_out_non_visual_nodes r
  else if name = "simplify_attributes" then
    simplify_attributes r
  else if name = "collapse_deeply_nested_container_with_one_child" then
    collapse_deeply_nested_container_with_one_child r
  else if name = "prune_repetitive_and_boilerplate_navigation_items" then
    prune_repetitive_and_boilerplate_navigation_items r
  else if name = "reduce_large_inline_SVGs_or_images_to_lightweight_placeholders" then
    reduce_large_inline_SVGs_or_images_to_lightweight_placeholders r
  else if name = "preserve_tables_as_markdown" then
    preserve_tables_as_markdown r
  else if name = "preserve_deflists_as_markdown" then
    preserve_deflists_as_markdown r
  else if name = "preserve_lists_as_markdown" then
    preserve_lists_as_markdown r
  else if name = "preserve_figures_as_markdown" then
    preserve_figures_as_markdown r
  else if name = "preserve_css_tables_as_markdown" then
    preserve_css_tables_as_markdown r
  else .error (.unknownStage name)

/-- The names `runStage` resolves (the stage methods of the class). -/
def knownStages : List String :=
  ["parse_the_full_dom_into_a_dom_tree",
   "strip_out_non_structural_nodes",
   "strip_out_non_visual_nodes",
   "simplify_attributes",
   "collapse_deeply_nested_container_with_one_child",
   "prune_repetitive_and_boilerplate_navigation_items",
   "reduce_large_inline_SVGs_or_images_to_lightweight_placeholders",
   "preserve_tables_as_markdown",
   "preserve_deflists_as_markdown",
   "preserve_lists_as_markdown",
   "preserve_figures_as_markdown",
   "preserve_css_tables_as_markdown"]

/-- Is the name a stage `getattr` resolves? -/
def isKnownStage (name : String) : Bool := knownStages.contains name

/-- Run a list of stage names in order.  Each name is resolved only when
its turn comes (the source calls `getattr` inside the loop); on an error
the reducer state accumulated so far is returned together with the error
(the exception propagates out of `reduce`, and the caller's object keeps
the mutations of the stages that already ran). -/
def runPipe (parse : String → List Node) : List String → Reducer →
    Reducer × Option PipeError
  | [], r => (r, none)
  | name :: rest, r =>
      match runStage parse name r with
      | .ok r1 => runPipe parse rest r1
      | .error e => (r, some e)

/-- Python `reduce(self, order=None)`: `steps = order or self._DEFAULT_PIPE`
— both `None` and the empty list select the default pipeline, since an
empty list is falsy. -/
def reduce (parse : String → List Node) (r : Reducer) (order : Option (List String)) :
    Reducer × Option PipeError :=
  let steps :=
    match order with
    | none => defaultPipe
    | some l => if l.isEmpty then defaultPipe else l
  runPipe parse steps r

/-! ### Metrics collector (modelled from the spec)

The packaged reducer that records metrics is referenced by
`src/domreducer/test_run.py` (`total_char_len`, `raw_token_size`,
`reduced_char_len`, `reduced_token_size`, `reducement_details`), but its
source is not under `src/` — `src/reducer.py` carries no metrics code.  The
collector below is modelled from the spec: after each stage the current
tree is serialized, its character length and approximate token count are
measured, and the delta against the prior measurement is recorded in
execution order; the result surface carries the final markup and the
aggregate pre/post counts.  The serializer and the token counter are
external collaborators (the token counter is a parameter; the serializer is
a simple deterministic rendering). -/

/-- Render an attribute value for serialization (token lists join with
spaces). -/
def avSerialize : AttrVal → String
  | .str s => s
  | .list ts => pyJoin " " ts

mutual

/-- Modelled serializer collaborator: deterministic rendering of a node. -/
def serializeNode : Node → String
  | .elem n a cs =>
      "<" ++ n
        ++ pyJoin "" (a.map (fun p => " " ++ p.1 ++ "=\x22" ++ avSerialize p.2 ++ "\x22"))
        ++ ">" ++ serializeList cs ++ "</" ++ n ++ ">"
  | .text s => s
  | .comment s => "<!--" ++ s ++ "-->"

/-- Modelled serializer collaborator on a forest. -/
def serializeList : List Node → String
  | [] => ""
  | c :: rest => serializeNode c ++ serializeList rest

end

/-- The markup the metrics collector measures: the serialized tree once
parsed, the raw markup before parsing. -/
def currentHtml (r : Reducer) : String :=
  match r.dom_tree with
  | none => r.raw_html
  | some t => serializeList t

/-- Per-step record of `reducement_details`: step name, character length
before/after with the delta, token count before/after with the delta, in
execution order. -/
structure StepStats where
  step : String
  char_before : Nat
  char_after : Nat
  char_delta : Int
  token_before : Nat
  token_after : Nat
  token_delta : Int
deriving DecidableEq, Repr

/-- Result surface of a metrics-collecting pipeline run. -/
structure RunResult where
  final : Reducer
  total_char_len : Nat
  raw_token_size : Nat
  reduced_char_len : Nat
  reduced_token_size : Nat
  reducement_details : List StepStats
  err : Option PipeError
deriving DecidableEq, Repr

/-- Modelled from the spec: the metrics-collecting loop of the pipeline
runner.  `m` is the prior measurement `(chars, tokens)`. -/
def runPipeMetrics (parse : String → List Node) (tok : String → Nat) :
    List String → Reducer → Nat × Nat → List StepStats →
    Reducer × (Nat × Nat) × List StepStats × Option PipeError
  | [], r, m, acc => (r, m, acc, none)
  | name :: rest, r, m, acc =>
      match runStage parse name r with
      | .error e => (r, m, acc, some e)
      | .ok r1 =>
          let s := currentHtml r1
          let m1 : Nat × Nat := (s.length, tok s)
          runPipeMetrics parse tok rest r1 m1
            (acc ++ [{ step := name,
                       char_before := m.1, char_after := m1.1,
                       char_delta := (m1.1 : Int) - (m.1 : Int),
                       token_before := m.2, token_after := m1.2,
                       token_delta := (m1.2 : Int) - (m.2 : Int) }])

/-- The stage list selected by `order or self._DEFAULT_PIPE`. -/
def effectiveSteps (order : Option (List String)) : List String :=
  match order with
  | none => defaultPipe
  | some l => if l.isEmpty then defaultPipe else l

/-- Modelled from the spec: run the pipeline while collecting metrics; the
initial measurement is taken before the first stage, and the aggregates are
the initial and final measurements. -/
def reduceWithMetrics (parse : String → List Node) (tok : String → Nat)
    (r : Reducer) (order : Option (List String)) : RunResult :=
  let out := runPipeMetrics parse tok (effectiveSteps order) r
    ((currentHtml r).length, tok (currentHtml r)) []
  { final := out.1,
    total_char_len := (currentHtml r).length,
    raw_token_size := tok (currentHtml r),
    reduced_char_len := out.2.1.1,
    reduced_token_size := out.2.1.2,
    reducement_details := out.2.2.1,
    err := out.2.2.2 }

/-- Does a detail list chain correctly from the initial to the final
measurement: each record measures before/after around its step, the before
equals the prior after, and each delta is after minus before? -/
def chainOk : Nat × Nat → List StepStats → Nat × Nat → Bool
  | m, [], mf => m.1 = mf.1 && m.2 = mf.2
  | m, st :: rest, mf =>
      st.char_before = m.1 && st.token_before = m.2
        && st.char_delta = (st.char_after : Int) - (st.char_before : Int)
        && st.token_delta = (st.token_after : Int) - (st.token_before : Int)
        && chainOk (st.char_after, st.token_after) rest mf

/-! ### Auxiliary predicates and spec-worded definitions used by the theorems -/

/-- Are all attribute keys of this list drawn from the allow-list? -/
def attrsAllowed (a : List (String × AttrVal)) : Bool :=
  a.all (fun p => allowedAttrs.contains p.1)

/-- Do all elements of the forest (recursively) carry only allow-listed
attribute keys? -/
def allAttrsAllowed : List Node → Bool
  | [] => true
  | .elem _ a cs :: rest => attrsAllowed a && allAttrsAllowed cs && allAttrsAllowed rest
  | _ :: rest => allAttrsAllowed rest

/-- No matched container (`nav`/`ul`/`ol`) occurs anywhere in the forest. -/
def navFree : List Node → Bool
  | [] => true
  | .elem n _ cs :: rest => !navTags.contains n && navFree cs && navFree rest
  | _ :: rest => navFree rest

/-- No matched container is nested inside another matched container. -/
def noNestedNav : List Node → Bool
  | [] => true
  | .elem n _ cs :: rest =>
      (if navTags.contains n then navFree cs else noNestedNav cs) && noNestedNav rest
  | _ :: rest => noNestedNav rest

/-- Fingerprints of all matched containers in the forest, in document
(pre-order) order. -/
def matchedFps : List Node → List String
  | [] => []
  | .elem n _ cs :: rest =>
      (if navTags.contains n then [fpOf cs] else []) ++ (matchedFps cs ++ matchedFps rest)
  | _ :: rest => matchedFps rest

/-- The prune stage as the spec words it (§4.6): walk matched containers in
document order keeping a set of seen fingerprints; the first occurrence of a
fingerprint is kept (with its content intact), every subsequent matched
element with an identical fingerprint is removed in full.  Stated as a
second definition to compare against the source-derived `pruneList`. -/
def pruneSpecList (seen : List String) : List Node → List String × List Node
  | [] => (seen, [])
  | .elem n a cs :: rest =>
      if navTags.contains n then
        let fp := fpOf cs
        if seen.contains fp then pruneSpecList seen rest
        else
          let outer := pruneSpecList (seen ++ [fp]) rest
          (outer.1, .elem n a cs :: outer.2)
      else
        let inner := pruneSpecList seen cs
        let outer := pruneSpecList inner.1 rest
        (outer.1, .elem n a inner.2 :: outer.2)
  | t :: rest =>
      let outer := pruneSpecList seen rest
      (outer.1, t :: outer.2)

/-- No element of the forest (recursively) satisfies the trigger. -/
def allNotTrig (trig : Node → Bool) : List Node → Bool
  | [] => true
  | .elem n a cs :: rest =>
      !trig (.elem n a cs) && allNotTrig trig cs && allNotTrig trig rest
  | _ :: rest => allNotTrig trig rest

/-- No comment node anywhere in the forest. -/
def commentFree : List Node → Bool
  | [] => true
  | .comment _ :: _ => false
  | .elem _ _ cs :: rest => commentFree cs && commentFree rest
  | .text _ :: rest => commentFree rest

/-- No non-structural tag anywhere in the forest. -/
def nsTagFree : List Node → Bool
  | [] => true
  | .elem n _ cs :: rest => !nonStructuralTags.contains n && nsTagFree cs && nsTagFree rest
  | _ :: rest => nsTagFree rest

/-- A data-URI image source exceeding the 1500-character threshold. -/
def bigDataUri : String :=
  "data:image" ++ String.mk (List.replicate 1491 'a')

/-- The placeholder produced for a large image without numeric dimensions. -/
def autoImgPlaceholder : Node :=
  .elem "img"
    [("data-placeholder", AttrVal.str "1"), ("width", AttrVal.str "auto"),
     ("height", AttrVal.str "auto")] []


/-! ## Helper lemmas -/

theorem runPipeMetrics_acc (parse : String → List Node) (tok : String → Nat)
    (steps : List String) : ∀ (r : Reducer) (m : Nat × Nat) (acc : List StepStats),
    runPipeMetrics parse tok steps r m acc
      = ((runPipeMetrics parse tok steps r m []).1,
         (runPipeMetrics parse tok steps r m []).2.1,
         acc ++ (runPipeMetrics parse tok steps r m []).2.2.1,
         (runPipeMetrics parse tok steps r m []).2.2.2) := by
  induction steps with
  | nil => intro r m acc; simp [runPipeMetrics]
  | cons s rest ih =>
      intro r m acc
      simp only [runPipeMetrics]
      cases h : runStage parse s r with
      | error e => simp
      | ok r1 =>
          dsimp only
          simp only [List.nil_append]
          rw [ih r1 _ (acc ++ [_]), ih r1 _ [_]]
          simp

theorem runPipeMetrics_ok (parse : String → List Node) (tok : String → Nat) :
    ∀ (steps : List String) (r : Reducer) (m : Nat × Nat),
    m = ((currentHtml r).length, tok (currentHtml r)) →
    (runPipeMetrics parse tok steps r m []).2.2.2 = none →
    ((runPipeMetrics parse tok steps r m []).2.2.1).map (fun st => st.step) = steps
    ∧ chainOk m ((runPipeMetrics parse tok steps r m []).2.2.1)
        ((runPipeMetrics parse tok steps r m []).2.1) = true
    ∧ (runPipeMetrics parse tok steps r m []).2.1
        = ((currentHtml (runPipeMetrics parse tok steps r m []).1).length,
           tok (currentHtml (runPipeMetrics parse tok steps r m []).1)) := by
  intro steps
  induction steps with
  | nil =>
      intro r m hm _
      refine ⟨rfl, ?_, ?_⟩
      · simp [runPipeMetrics, chainOk]
      · simpa [runPipeMetrics] using hm
  | cons s rest ih =>
      intro r m hm herr
      simp only [runPipeMetrics] at herr ⊢
      cases h : runStage parse s r with
      | error e => rw [h] at herr; cases herr
      | ok r1 =>
          rw [h] at herr
          dsimp only at herr ⊢
          simp only [List.nil_append] at herr ⊢
          rw [runPipeMetrics_acc parse tok rest r1 _ [_]] at herr ⊢
          simp only at herr
          obtain ⟨ih1, ih2, ih3⟩ := ih r1 _ rfl herr
          refine ⟨?_, ?_, ?_⟩
          · simp [ih1]
          · simp only [chainOk, hm]
            simp [ih2]
          · simpa using ih3

theorem isKnownStage_ne (name c : String) (h : isKnownStage name = false)
    (hc : isKnownStage c = true) : name ≠ c := by
  intro heq
  rw [heq, hc] at h
  cases h

theorem runStage_unknown (parse : String → List Node) (name : String) (r : Reducer)
    (h : isKnownStage name = false) :
    runStage parse name r = .error (.unknownStage name) := by
  unfold runStage
  rw [if_neg (isKnownStage_ne name _ h (by decide)),
    if_neg (isKnownStage_ne name _ h (by decide)),
    if_neg (isKnownStage_ne name _ h (by decide)),
    if_neg (isKnownStage_ne name _ h (by decide)),
    if_neg (isKnownStage_ne name _ h (by decide)),
    if_neg (isKnownStage_ne name _ h (by decide)),
    if_neg (isKnownStage_ne name _ h (by decide)),
    if_neg (isKnownStage_ne name _ h (by decide)),
    if_neg (isKnownStage_ne name _ h (by decide)),
    if_neg (isKnownStage_ne name _ h (by decide)),
    if_neg (isKnownStage_ne name _ h (by decide)),
    if_neg (isKnownStage_ne name _ h (by decide))]

theorem reduce_cons (parse : String → List Node) (r : Reducer) (x : String)
    (xs : List String) :
    reduce parse r (some (x :: xs)) = runPipe parse (x :: xs) r := rfl

theorem reduce_of_ne_nil (parse : String → List Node) (r : Reducer)
    (l : List String) (h : l ≠ []) :
    reduce parse r (some l) = runPipe parse l r := by
  cases l with
  | nil => cases h rfl
  | cons x xs => rfl

/-! ## Claim theorems -/

/-- C10: calling `reduce` with an explicitly empty stage list runs the
entire default pipeline, exactly as `reduce(None)` does, because
`order or self._DEFAULT_PIPE` treats the empty list as falsy. -/
theorem C10_theorem (parse : String → List Node) (r : Reducer) :
    reduce parse r (some []) = reduce parse r none := rfl

/-- C1 (counterexample): with the stage list
`["parse_the_full_dom_into_a_dom_tree", "not_a_real_stage"]`, `reduce` does
fail with a configuration error, but only after `parse` has already run:
the reducer's `dom_tree` has been mutated from `none` to the parsed tree by
the time the unknown name is looked up, contradicting "fails ... before any
stage runs and before any mutation of the document occurs". -/
theorem C1_counterexample :
    (reduce (fun _ => [Node.text "x"]) ⟨"<p>x</p>", none⟩
        (some ["parse_the_full_dom_into_a_dom_tree", "not_a_real_stage"])).2
      = some (.unknownStage "not_a_real_stage")
    ∧ (reduce (fun _ => [Node.text "x"]) ⟨"<p>x</p>", none⟩
        (some ["parse_the_full_dom_into_a_dom_tree", "not_a_real_stage"])).1.dom_tree
      = some [Node.text "x"] :=
  ⟨rfl, rfl⟩

/-- C1 (amended): an unknown stage name makes `reduce` fail with a
configuration error, but the name is resolved only when its turn comes in
the list: every stage before the first unknown name has already executed,
so the reducer reaches the error in the state produced by that prefix (the
document may already be parsed and mutated); nothing after the unknown name
runs. -/
theorem C1_theorem (parse : String → List Node) (name : String)
    (pre suf : List String) (r r' : Reducer)
    (hname : isKnownStage name = false)
    (hpre : runPipe parse pre r = (r', none)) :
    reduce parse r (some (pre ++ name :: suf)) = (r', some (.unknownStage name)) := by
  rw [reduce_of_ne_nil parse r _ (by simp)]
  induction pre generalizing r with
  | nil =>
      have h1 : r = r' := congrArg Prod.fst hpre
      rw [List.nil_append, ← h1]
      simp only [runPipe]
      rw [runStage_unknown parse name r hname]
  | cons p ps ih =>
      rw [List.cons_append]
      simp only [runPipe] at hpre ⊢
      cases hs : runStage parse p r with
      | error e =>
          rw [hs] at hpre
          exact absurd (congrArg Prod.snd hpre) (by simp)
      | ok r1 =>
          rw [hs] at hpre
          exact ih r1 hpre

/-- C7: the media-placeholder stage is not total — `int()` is applied to
the raw `width`/`height` attribute strings of every image whether or not
the data-URI test already matched, so a valid tree containing
`<img width="abc" height="1">` makes the stage raise `ValueError`, while
the spec requires every stage to be total on well-formed trees. -/
theorem C7_theorem :
    reduce_large_inline_SVGs_or_images_to_lightweight_placeholders
      ⟨"", some [Node.elem "img" [("width", AttrVal.str "abc"), ("height", AttrVal.str "1")] []]⟩
      = .error .valueError := by
  simp [reduce_large_inline_SVGs_or_images_to_lightweight_placeholders,
    mediaStageList, imgPass, topDownConv, svgTrig, nodeName, dimVal, getAttr,
    avPyStr, pyInt, isPySpace, digitsVal, getStrAttr, pyStartsWith,
    matchLitChars, Bind.bind, Except.bind]

/-- C8: a table with a row but no cells is not skipped — `rows` is
non-empty, so `table_data = [[]]` is truthy and the guard cannot fire; the
table is converted into a degenerate `|  |` grid.  (Moreover the
`preserve_tables_as_markdown` `def` in `src/reducer.py` is mis-indented
inside the previous method, so the file as written is not valid Python;
the stage modelled here is the evidently intended one.) -/
theorem C8_theorem :
    preserveTablesList [Node.elem "table" [] [Node.elem "tr" [] []]]
      = [Node.elem "pre" [("data-table", AttrVal.str "1")]
          [Node.text ("|  |" ++ "\n" ++ "|  |")]] := by
  simp [preserveTablesList, topDownConv, tableTrig, tableConv, trsOf, elemsPre,
    nodeName, childrenOf, rowCells, cellTextOf, getTextStrip, textFragments,
    wsCollapse, splitOnWs, pyJoin, maxRowLen, padRows, mdGridLines, mdRow]

/-- C9: every stage other than parse begins with the `_assert_parsed`
guard: invoked on an unparsed reducer it fails with the unparsed-document
error before touching anything, and the caller can recover by parsing
first — after `parse_the_full_dom_into_a_dom_tree` the same stage call
succeeds on the unchanged `raw_html`. -/
theorem C9_theorem (parse : String → List Node) (r : Reducer)
    (h : r.dom_tree = none) :
    strip_out_non_structural_nodes r = .error .unparsedDocument
    ∧ strip_out_non_visual_nodes r = .error .unparsedDocument
    ∧ simplify_attributes r = .error .unparsedDocument
    ∧ collapse_deeply_nested_container_with_one_child r = .error .unparsedDocument
    ∧ prune_repetitive_and_boilerplate_navigation_items r = .error .unparsedDocument
    ∧ reduce_large_inline_SVGs_or_images_to_lightweight_placeholders r
        = .error .unparsedDocument
    ∧ preserve_tables_as_markdown r = .error .unparsedDocument
    ∧ preserve_deflists_as_markdown r = .error .unparsedDocument
    ∧ preserve_lists_as_markdown r = .error .unparsedDocument
    ∧ preserve_figures_as_markdown r = .error .unparsedDocument
    ∧ preserve_css_tables_as_markdown r = .error .unparsedDocument
    ∧ strip_out_non_structural_nodes (parse_the_full_dom_into_a_dom_tree parse r)
        = .ok ⟨r.raw_html, some (stripNonStructuralList (parse r.raw_html))⟩ := by
  refine ⟨?_, ?_, ?_, ?_, ?_, ?_, ?_, ?_, ?_, ?_, ?_, ?_⟩
  all_goals
    simp [strip_out_non_structural_nodes, strip_out_non_visual_nodes,
      simplify_attributes, collapse_deeply_nested_container_with_one_child,
      prune_repetitive_and_boilerplate_navigation_items,
      reduce_large_inline_SVGs_or_images_to_lightweight_placeholders,
      preserve_tables_as_markdown, preserve_deflists_as_markdown,
      preserve_lists_as_markdown, preserve_figures_as_markdown,
      preserve_css_tables_as_markdown, parse_the_full_dom_into_a_dom_tree,
      guarded, h]

/-- C9 (witness): the guard fires on a freshly constructed reducer, and
parsing first makes the structural-clutter stage succeed. -/
theorem C9_witness :
    strip_out_non_structural_nodes ⟨"", none⟩ = .error .unparsedDocument
    ∧ strip_out_non_visual_nodes ⟨"", none⟩ = .error .unparsedDocument
    ∧ simplify_attributes ⟨"", none⟩ = .error .unparsedDocument
    ∧ collapse_deeply_nested_container_with_one_child ⟨"", none⟩
        = .error .unparsedDocument
    ∧ prune_repetitive_and_boilerplate_navigation_items ⟨"", none⟩
        = .error .unparsedDocument
    ∧ reduce_large_inline_SVGs_or_images_to_lightweight_placeholders ⟨"", none⟩
        = .error .unparsedDocument
    ∧ preserve_tables_as_markdown ⟨"", none⟩ = .error .unparsedDocument
    ∧ preserve_deflists_as_markdown ⟨"", none⟩ = .error .unparsedDocument
    ∧ preserve_lists_as_markdown ⟨"", none⟩ = .error .unparsedDocument
    ∧ preserve_figures_as_markdown ⟨"", none⟩ = .error .unparsedDocument
    ∧ preserve_css_tables_as_markdown ⟨"", none⟩ = .error .unparsedDocument
    ∧ strip_out_non_structural_nodes
        (parse_the_full_dom_into_a_dom_tree (fun _ => []) ⟨"", none⟩)
        = .ok ⟨"", some (stripNonStructuralList [])⟩ :=
  C9_theorem (fun _ => []) ⟨"", none⟩ rfl

/-- C2: for every pipeline run of the metrics-collecting runner that
completes without error, `reducement_details` holds one record per executed
stage, in execution order (its step names are exactly the selected stage
list); the records chain — each begins at the previous measurement, each
delta is after minus before for both characters and tokens, the first
record starts at the aggregate pre-measurements and the chain ends at the
aggregate post-measurements; and the post-measurements are the character
length and token count of the final serialized markup. -/
theorem C2_theorem (parse : String → List Node) (tok : String → Nat) (r : Reducer)
    (order : Option (List String))
    (herr : (reduceWithMetrics parse tok r order).err = none) :
    ((reduceWithMetrics parse tok r order).reducement_details).map (fun st => st.step)
        = effectiveSteps order
    ∧ chainOk ((reduceWithMetrics parse tok r order).total_char_len,
               (reduceWithMetrics parse tok r order).raw_token_size)
        ((reduceWithMetrics parse tok r order).reducement_details)
        ((reduceWithMetrics parse tok r order).reduced_char_len,
         (reduceWithMetrics parse tok r order).reduced_token_size) = true
    ∧ (reduceWithMetrics parse tok r order).reduced_char_len
        = (currentHtml (reduceWithMetrics parse tok r order).final).length
    ∧ (reduceWithMetrics parse tok r order).reduced_token_size
        = tok (currentHtml (reduceWithMetrics parse tok r order).final) := by
  have h := runPipeMetrics_ok parse tok (effectiveSteps order) r
    ((currentHtml r).length, tok (currentHtml r)) rfl herr
  refine ⟨h.1, ?_, ?_, ?_⟩
  · simpa [reduceWithMetrics] using h.2.1
  · exact congrArg Prod.fst h.2.2
  · exact congrArg Prod.snd h.2.2

/-- C2 (witness): the default pipeline on an empty document runs without
error and the metrics surface satisfies the chained-records statement. -/
theorem C2_witness :
    (reduceWithMetrics (fun _ => []) String.length ⟨"", none⟩ none).err = none
    ∧ (((reduceWithMetrics (fun _ => []) String.length ⟨"", none⟩ none).reducement_details).map
        (fun st => st.step) = effectiveSteps none
      ∧ chainOk ((reduceWithMetrics (fun _ => []) String.length ⟨"", none⟩ none).total_char_len,
                 (reduceWithMetrics (fun _ => []) String.length ⟨"", none⟩ none).raw_token_size)
          ((reduceWithMetrics (fun _ => []) String.length ⟨"", none⟩ none).reducement_details)
          ((reduceWithMetrics (fun _ => []) String.length ⟨"", none⟩ none).reduced_char_len,
           (reduceWithMetrics (fun _ => []) String.length ⟨"", none⟩ none).reduced_token_size) = true
      ∧ (reduceWithMetrics (fun _ => []) String.length ⟨"", none⟩ none).reduced_char_len
          = (currentHtml (reduceWithMetrics (fun _ => []) String.length ⟨"", none⟩ none).final).length
      ∧ (reduceWithMetrics (fun _ => []) String.length ⟨"", none⟩ none).reduced_token_size
          = String.length
              (currentHtml (reduceWithMetrics (fun _ => []) String.length ⟨"", none⟩ none).final)) := by
  have herr : (reduceWithMetrics (fun _ => []) String.length ⟨"", none⟩ none).err = none := by
    simp [reduceWithMetrics, effectiveSteps, defaultPipe, runPipeMetrics, runStage,
      parse_the_full_dom_into_a_dom_tree, strip_out_non_structural_nodes,
      strip_out_non_visual_nodes, simplify_attributes,
      collapse_deeply_nested_container_with_one_child,
      prune_repetitive_and_boilerplate_navigation_items,
      reduce_large_inline_SVGs_or_images_to_lightweight_placeholders,
      guarded, stripNonStructuralList, removeComments, removeNonStructuralTags,
      stripNonVisualList, stripHiddenList, emptyInlineList, simplifyAttributesList,
      collapseList, pruneNavList, pruneList, mediaStageList, imgPass, topDownConv,
      currentHtml, serializeList, Bind.bind, Except.bind, Pure.pure, Except.pure]
  exact ⟨herr, C2_theorem (fun _ => []) String.length ⟨"", none⟩ none herr⟩

/-! ### C5: attribute simplification -/

theorem setAttr_attrsAllowed (l : List (String × AttrVal)) (k : String) (v : AttrVal) :
    attrsAllowed (setAttr l k v) = attrsAllowed l := by
  induction l with
  | nil => rfl
  | cons p rest ih =>
      by_cases hp : p.1 = k <;> simp [setAttr, attrsAllowed, hp] at ih ⊢ <;>
        rw [ih]

theorem attrsAllowed_simplifyKept (a : List (String × AttrVal)) :
    attrsAllowed (simplifyKept a) = true := by
  simp only [attrsAllowed, simplifyKept, List.all_eq_true]
  intro p hp
  exact (List.mem_filter.mp hp).2

theorem attrsAllowed_simplifyOne (a : List (String × AttrVal)) :
    attrsAllowed (simplifyAttrsOne a) = true := by
  unfold simplifyAttrsOne
  cases h : getAttr (simplifyKept a) "class" with
  | none => simp only [h]; exact attrsAllowed_simplifyKept a
  | some v =>
      cases v with
      | str s => simp only [h]; exact attrsAllowed_simplifyKept a
      | list ts =>
          simp only [h]
          by_cases h6 : ts.length > 6
          · rw [if_pos h6, setAttr_attrsAllowed]; exact attrsAllowed_simplifyKept a
          · rw [if_neg h6]; exact attrsAllowed_simplifyKept a

theorem getAttr_simplifyKept (a : List (String × AttrVal)) (k : String)
    (hk : allowedAttrs.contains k = true) :
    getAttr (simplifyKept a) k = getAttr a k := by
  unfold simplifyKept
  induction a with
  | nil => rfl
  | cons p rest ih =>
      by_cases hp : p.1 = k
      · have hkp : allowedAttrs.contains p.1 = true := by rw [hp]; exact hk
        rw [List.filter_cons_of_pos (by simpa using hkp)]
        simp [getAttr, hp]
      · by_cases hkeep : allowedAttrs.contains p.1 = true
        · rw [List.filter_cons_of_pos (by simpa using hkeep)]
          simp only [getAttr, if_neg hp]
          exact ih
        · rw [List.filter_cons_of_neg (by simpa using hkeep), ih]
          simp [getAttr, hp]

theorem getAttr_setAttr (l : List (String × AttrVal)) (k : String) (v : AttrVal)
    (h : (getAttr l k).isSome = true) :
    getAttr (setAttr l k v) k = some v := by
  induction l with
  | nil => cases h
  | cons p rest ih =>
      by_cases hp : p.1 = k
      · simp [setAttr, getAttr, hp]
      · have h1 : (getAttr rest k).isSome = true := by
          simpa [getAttr, if_neg hp] using h
        have h2 : getAttr (setAttr (p :: rest) k v) k = getAttr (setAttr rest k v) k := by
          simp [setAttr, getAttr, hp]
        rw [h2]
        exact ih h1

theorem simplifyOne_class_trunc (a : List (String × AttrVal)) (ts : List String)
    (hc : getAttr a "class" = some (.list ts)) (h6 : 6 < ts.length) :
    getAttr (simplifyAttrsOne a) "class" = some (.list (ts.take 6 ++ ["…"])) := by
  have hf : getAttr (simplifyKept a) "class" = some (.list ts) := by
    rw [getAttr_simplifyKept a "class" (by decide)]; exact hc
  unfold simplifyAttrsOne
  rw [hf]
  simp only [h6, if_pos]
  exact getAttr_setAttr _ _ _ (by rw [hf]; rfl)

theorem allAttrsAllowed_simplifyList (t : List Node) :
    allAttrsAllowed (simplifyAttributesList t) = true := by
  induction t using simplifyAttributesList.induct with
  | case1 => simp [simplifyAttributesList, allAttrsAllowed]
  | case2 n a cs rest ih1 ih2 =>
      simp [simplifyAttributesList, allAttrsAllowed, attrsAllowed_simplifyOne, ih1, ih2]
  | case3 t rest ht ih =>
      cases t with
      | elem n a cs => cases ht n a cs rfl
      | text s => simpa [simplifyAttributesList, allAttrsAllowed] using ih
      | comment s => simpa [simplifyAttributesList, allAttrsAllowed] using ih

/-- C5: after `simplify_attributes` every element of the output tree
carries only allow-listed attribute keys; the stage is structure-preserving
on elements, and an input `class` token list longer than 6 tokens comes out
as exactly its first 6 tokens plus one trailing ellipsis token. -/
theorem C5_theorem (t : List Node) (n : String) (a : List (String × AttrVal))
    (cs : List Node) (ts : List String)
    (hc : getAttr a "class" = some (.list ts)) (h6 : 6 < ts.length) :
    allAttrsAllowed (simplifyAttributesList t) = true
    ∧ simplifyAttributesList (Node.elem n a cs :: t)
        = Node.elem n (simplifyAttrsOne a) (simplifyAttributesList cs)
            :: simplifyAttributesList t
    ∧ getAttr (simplifyAttrsOne a) "class" = some (.list (ts.take 6 ++ ["…"])) :=
  ⟨allAttrsAllowed_simplifyList t, by simp [simplifyAttributesList],
    simplifyOne_class_trunc a ts hc h6⟩

/-- C5 (witness): a `div` with an 8-token class list and a tracking
attribute keeps `id` and `class` only, and the class list becomes the first
6 tokens plus an ellipsis. -/
theorem C5_witness :
    allAttrsAllowed (simplifyAttributesList [Node.text "x"]) = true
    ∧ simplifyAttributesList
        (Node.elem "div"
          [("onclick", AttrVal.str "f"),
           ("class", AttrVal.list ["a", "b", "c", "d", "e", "f", "g", "h"])] []
          :: [Node.text "x"])
        = Node.elem "div"
            (simplifyAttrsOne
              [("onclick", AttrVal.str "f"),
               ("class", AttrVal.list ["a", "b", "c", "d", "e", "f", "g", "h"])])
            (simplifyAttributesList [])
            :: simplifyAttributesList [Node.text "x"]
    ∧ getAttr
        (simplifyAttrsOne
          [("onclick", AttrVal.str "f"),
           ("class", AttrVal.list ["a", "b", "c", "d", "e", "f", "g", "h"])])
        "class"
        = some (AttrVal.list (["a", "b", "c", "d", "e", "f", "g", "h"].take 6 ++ ["…"])) :=
  C5_theorem [Node.text "x"] "div"
    [("onclick", AttrVal.str "f"),
     ("class", AttrVal.list ["a", "b", "c", "d", "e", "f", "g", "h"])]
    [] ["a", "b", "c", "d", "e", "f", "g", "h"] rfl (by decide)

/-! ### C3: non-visual-node removal -/

theorem stripHidden_append (xs ys : List Node) :
    stripHiddenList (xs ++ ys) = stripHiddenList xs ++ stripHiddenList ys := by
  induction xs with
  | nil => simp [stripHiddenList]
  | cons c rest ih =>
      cases c with
      | elem n a cs =>
          simp only [List.cons_append, stripHiddenList]
          split <;> simp [ih]
      | text s => simp [stripHiddenList, ih]
      | comment s => simp [stripHiddenList, ih]

theorem emptyInline_append (xs ys : List Node) :
    emptyInlineList (xs ++ ys) = emptyInlineList xs ++ emptyInlineList ys := by
  induction xs with
  | nil => simp [emptyInlineList]
  | cons c rest ih =>
      cases c with
      | elem n a cs =>
          simp only [List.cons_append, emptyInlineList]
          split <;> simp [ih]
      | text s => simp [emptyInlineList, ih]
      | comment s => simp [emptyInlineList, ih]

/-- C3 (amended): an element that passes the hidden test and has no element
descendants is removed by the stage — the output is as if it were absent;
an element that passes the hidden test but wraps at least one element is
not removed by the hidden pass but its subtree is itself processed by both
passes (hidden leaf descendants and empty inline wrappers inside it are
removed), and the container itself survives the second pass provided it is
not an inline tag left with no contents. -/
theorem C3_theorem (pre suf : List Node) (n : String)
    (a : List (String × AttrVal)) (cs : List Node) :
    (isHiddenAttrs a = true → (elemsPre cs).isEmpty = true →
      stripNonVisualList (pre ++ Node.elem n a cs :: suf)
        = stripNonVisualList (pre ++ suf))
    ∧ (isHiddenAttrs a = true → (elemsPre cs).isEmpty = false →
      (inlineTags.contains n = false ∨ (stripHiddenList cs).isEmpty = false) →
      stripNonVisualList (pre ++ Node.elem n a cs :: suf)
        = stripNonVisualList pre
            ++ Node.elem n a (stripNonVisualList cs) :: stripNonVisualList suf) := by
  constructor
  · intro h1 h2
    have hx : stripHiddenList (Node.elem n a cs :: suf) = stripHiddenList suf := by
      simp [stripHiddenList, h1, h2]
    unfold stripNonVisualList
    rw [stripHidden_append, hx, ← stripHidden_append]
  · intro h1 h2 h3
    have hx : stripHiddenList (Node.elem n a cs :: suf)
        = Node.elem n a (stripHiddenList cs) :: stripHiddenList suf := by
      simp [stripHiddenList, h1, h2]
    have hkeep : ((stripHiddenList cs).isEmpty && inlineTags.contains n) = false := by
      rcases h3 with h3 | h3
      · rw [h3, Bool.and_false]
      · rw [h3, Bool.false_and]
    unfold stripNonVisualList
    rw [stripHidden_append, hx, emptyInline_append]
    simp only [emptyInlineList]
    rw [if_neg (by rw [hkeep]; simp)]

/-- C3 (counterexample): in `<div hidden><span hidden></span></div>` the
`div` passes the hidden test and has exactly one element child, so the
claim requires it to be retained together with its subtree; the stage
instead keeps the `div` but removes the hidden childless `span` from inside
it, so the subtree is not retained intact. -/
theorem C3_counterexample :
    isHiddenAttrs [("hidden", AttrVal.str "")] = true
    ∧ countElemChildren [Node.elem "span" [("hidden", AttrVal.str "")] []] = 1
    ∧ stripNonVisualList
        [Node.elem "div" [("hidden", AttrVal.str "")]
          [Node.elem "span" [("hidden", AttrVal.str "")] []]]
        = [Node.elem "div" [("hidden", AttrVal.str "")] []]
    ∧ [Node.elem "div" [("hidden", AttrVal.str "")] []]
        ≠ [Node.elem "div" [("hidden", AttrVal.str "")]
            [Node.elem "span" [("hidden", AttrVal.str "")] []]] := by
  refine ⟨by decide, by decide, ?_, by decide⟩
  simp [stripNonVisualList, stripHiddenList, emptyInlineList, isHiddenAttrs,
    hasAttr, getAttr, elemsPre, inlineTags]

/-- C3 (witness): the amended statement at concrete inputs — a hidden
childless `p` is removed; a hidden `div` wrapping a visible `em` is kept
with its processed subtree. -/
theorem C3_witness :
    stripNonVisualList
        [Node.text "t", Node.elem "p" [("hidden", AttrVal.str "")] [Node.text "x"]]
      = stripNonVisualList [Node.text "t"]
    ∧ stripNonVisualList
        [Node.elem "div" [("hidden", AttrVal.str "")] [Node.elem "em" [] [Node.text "v"]]]
      = stripNonVisualList []
          ++ Node.elem "div" [("hidden", AttrVal.str "")]
              (stripNonVisualList [Node.elem "em" [] [Node.text "v"]])
            :: stripNonVisualList [] :=
  ⟨(C3_theorem [Node.text "t"] [] "p" [("hidden", AttrVal.str "")] [Node.text "x"]).1
      (by decide) (by simp [elemsPre]),
    (C3_theorem [] [] "div" [("hidden", AttrVal.str "")]
        [Node.elem "em" [] [Node.text "v"]]).2
      (by decide) (by simp [elemsPre]) (Or.inl (by decide))⟩

/-! ### C4: duplicate-navigation pruning -/

theorem navFree_collectSeen (t : List Node) : ∀ seen : List String,
    navFree t = true → collectSeen seen t = seen := by
  induction t using navFree.induct with
  | case1 => intro seen _; simp [collectSeen]
  | case2 n a cs rest ih1 ih2 =>
      intro seen h
      simp only [navFree, Bool.and_eq_true, Bool.not_eq_true'] at h
      simp only [collectSeen, h.1.1, Bool.false_eq_true, if_false]
      rw [ih1 seen h.1.2, ih2 seen h.2]
  | case3 t rest ht ih =>
      intro seen h
      cases t with
      | elem n a cs => cases ht n a cs rfl
      | text s =>
          simp only [navFree] at h
          simp only [collectSeen]
          exact ih seen h
      | comment s =>
          simp only [navFree] at h
          simp only [collectSeen]
          exact ih seen h

theorem navFree_pruneList (t : List Node) : ∀ seen : List String,
    navFree t = true → pruneList seen t = (seen, t) := by
  induction t using navFree.induct with
  | case1 => intro seen _; simp [pruneList]
  | case2 n a cs rest ih1 ih2 =>
      intro seen h
      simp only [navFree, Bool.and_eq_true, Bool.not_eq_true'] at h
      simp only [pruneList, h.1.1, Bool.false_eq_true, if_false]
      rw [ih1 seen h.1.2]
      dsimp only
      rw [ih2 seen h.2]
  | case3 t rest ht ih =>
      intro seen h
      cases t with
      | elem n a cs => cases ht n a cs rfl
      | text s =>
          simp only [navFree] at h
          simp only [pruneList]
          rw [ih seen h]
      | comment s =>
          simp only [navFree] at h
          simp only [pruneList]
          rw [ih seen h]

theorem navFree_matchedFps (t : List Node) (h : navFree t = true) :
    matchedFps t = [] := by
  induction t using navFree.induct with
  | case1 => simp [matchedFps]
  | case2 n a cs rest ih1 ih2 =>
      simp only [navFree, Bool.and_eq_true, Bool.not_eq_true'] at h
      simp only [matchedFps, h.1.1, Bool.false_eq_true, if_false]
      rw [ih1 h.1.2, ih2 h.2]
      simp
  | case3 t rest ht ih =>
      cases t with
      | elem n a cs => cases ht n a cs rfl
      | text s =>
          simp only [navFree] at h
          simp only [matchedFps]
          exact ih h
      | comment s =>
          simp only [navFree] at h
          simp only [matchedFps]
          exact ih h

/-- On forests where matched containers are not nested inside one another,
the source's prune loop coincides with the spec's statement of it. -/
theorem pruneList_eq_spec (t : List Node) : ∀ seen : List String,
    noNestedNav t = true → pruneList seen t = pruneSpecList seen t := by
  induction t using noNestedNav.induct with
  | case1 => intro seen _; simp [pruneList, pruneSpecList]
  | case2 n a cs rest ih1 ih2 =>
      intro seen h
      simp only [noNestedNav, Bool.and_eq_true] at h
      simp only [pruneList, pruneSpecList]
      by_cases hn : navTags.contains n = true
      · rw [if_pos hn] at h
        rw [if_pos hn, if_pos hn]
        by_cases hdup : seen.contains (fpOf cs) = true
        · rw [if_pos hdup, if_pos hdup]
          rw [navFree_collectSeen cs seen h.1]
          exact ih2 seen h.2
        · rw [if_neg hdup, if_neg hdup]
          rw [navFree_pruneList cs _ h.1]
          rw [ih2 _ h.2]
      · rw [if_neg hn] at h
        rw [if_neg hn, if_neg hn]
        rw [ih1 seen h.1]
        rw [ih2 _ h.2]
  | case3 t rest ht ih =>
      intro seen h
      cases t with
      | elem n a cs => cases ht n a cs rfl
      | text s =>
          simp only [noNestedNav] at h
          simp only [pruneList, pruneSpecList]
          rw [ih seen h]
      | comment s =>
          simp only [noNestedNav] at h
          simp only [pruneList, pruneSpecList]
          rw [ih seen h]

/-- Invariant of the spec-worded prune pass on nesting-free forests: no
surviving matched fingerprint was already seen, the surviving fingerprints
are pairwise distinct, the final seen set absorbs the initial one and every
input fingerprint, and surviving fingerprints come from the input. -/
theorem pruneSpec_inv (t : List Node) : ∀ seen : List String,
    noNestedNav t = true →
    (∀ f ∈ matchedFps (pruneSpecList seen t).2, f ∉ seen)
    ∧ (matchedFps (pruneSpecList seen t).2).Nodup
    ∧ (∀ f, f ∈ seen → f ∈ (pruneSpecList seen t).1)
    ∧ (∀ f, f ∈ matchedFps t → f ∈ (pruneSpecList seen t).1)
    ∧ (∀ f ∈ matchedFps (pruneSpecList seen t).2, f ∈ matchedFps t) := by
  induction t using noNestedNav.induct with
  | case1 =>
      intro seen _
      simp [pruneSpecList, matchedFps]
  | case2 n a cs rest ih1 ih2 =>
      intro seen h
      simp only [noNestedNav, Bool.and_eq_true] at h
      simp only [pruneSpecList, matchedFps]
      by_cases hn : navTags.contains n = true
      · rw [if_pos hn] at h
        rw [if_pos hn, if_pos hn]
        have hfpcs : matchedFps cs = [] := navFree_matchedFps cs h.1
        by_cases hdup : seen.contains (fpOf cs) = true
        · rw [if_pos hdup]
          obtain ⟨c1, c2, c3, c4, c5⟩ := ih2 seen h.2
          refine ⟨c1, c2, c3, ?_, ?_⟩
          · intro f hf
            simp only [hfpcs, List.append_nil, List.nil_append, List.singleton_append,
              List.mem_cons] at hf
            rcases hf with hf | hf
            · exact c3 f (by rw [hf]; exact List.elem_iff.mp hdup)
            · exact c4 f hf
          · intro f hf
            simp only [hfpcs, List.append_nil, List.nil_append, List.singleton_append,
              List.mem_cons]
            exact Or.inr (c5 f hf)
        · rw [if_neg hdup]
          obtain ⟨c1, c2, c3, c4, c5⟩ := ih2 (seen ++ [fpOf cs]) h.2
          have hnotin : fpOf cs ∉ seen := fun hin => hdup (List.elem_iff.mpr hin)
          refine ⟨?_, ?_, ?_, ?_, ?_⟩
          · intro f hf
            simp only [matchedFps, hn, if_pos, hfpcs, List.append_nil,
              List.singleton_append, List.mem_cons] at hf
            rcases hf with hf | hf
            · rw [hf]; exact hnotin
            · intro hSeen
              exact c1 f hf (List.mem_append_left _ hSeen)
          · simp only [matchedFps, hn, if_pos, hfpcs, List.append_nil,
              List.singleton_append, List.nodup_cons]
            refine ⟨?_, c2⟩
            intro hf
            exact c1 _ hf (List.mem_append_right _ (List.mem_singleton_self _))
          · intro f hf
            exact c3 f (List.mem_append_left _ hf)
          · intro f hf
            simp only [hfpcs, List.append_nil, List.nil_append, List.singleton_append,
              List.mem_cons] at hf
            rcases hf with hf | hf
            · exact c3 f (by rw [hf]; exact List.mem_append_right _ (List.mem_singleton_self _))
            · exact c4 f hf
          · intro f hf
            simp only [matchedFps, hn, if_pos, hfpcs, List.append_nil,
              List.singleton_append, List.mem_cons] at hf ⊢
            rcases hf with hf | hf
            · exact Or.inl hf
            · exact Or.inr (c5 f hf)
      · rw [if_neg hn] at h
        rw [if_neg hn, if_neg hn]
        obtain ⟨b1, b2, b3, b4, b5⟩ := ih1 seen h.1
        obtain ⟨c1, c2, c3, c4, c5⟩ := ih2 (pruneSpecList seen cs).1 h.2
        simp only [List.nil_append]
        refine ⟨?_, ?_, ?_, ?_, ?_⟩
        · intro f hf
          simp only [matchedFps, hn, Bool.false_eq_true, if_false, List.nil_append,
            List.mem_append] at hf
          rcases hf with hf | hf
          · exact b1 f hf
          · intro hSeen
            exact c1 f hf (b3 f hSeen)
        · simp only [matchedFps, hn, Bool.false_eq_true, if_false, List.nil_append,
            List.nodup_append]
          refine ⟨b2, c2, ?_⟩
          intro f hf hf2
          exact c1 f hf2 (b4 f (b5 f hf))
        · intro f hf
          exact c3 f (b3 f hf)
        · intro f hf
          simp only [List.mem_append] at hf
          rcases hf with hf | hf
          · exact c3 f (b4 f hf)
          · exact c4 f hf
        · intro f hf
          simp only [matchedFps, hn, Bool.false_eq_true, if_false, List.nil_append,
            List.mem_append] at hf ⊢
          rcases hf with hf | hf
          · exact Or.inl (b5 f hf)
          · exact Or.inr (c5 f hf)
  | case3 t rest ht ih =>
      intro seen h
      cases t with
      | elem n a cs => cases ht n a cs rfl
      | text s =>
          simp only [noNestedNav] at h
          simp only [pruneSpecList, matchedFps]
          exact ih seen h
      | comment s =>
          simp only [noNestedNav] at h
          simp only [pruneSpecList, matchedFps]
          exact ih seen h

/-- C4 (amended): on documents where no matched container (`nav`/`ul`/`ol`)
is nested inside another matched container, the prune stage behaves exactly
as the spec words it — the first element carrying each fingerprint is kept
with its content intact and every subsequent matched element with an
identical fingerprint is removed in full — and the surviving matched
fingerprints are pairwise distinct (exactly one survivor per fingerprint). -/
theorem C4_theorem (t : List Node) (h : noNestedNav t = true) :
    pruneNavList t = (pruneSpecList [] t).2
    ∧ (matchedFps (pruneNavList t)).Nodup := by
  have he := pruneList_eq_spec t [] h
  constructor
  · unfold pruneNavList
    rw [he]
  · unfold pruneNavList
    rw [he]
    exact (pruneSpec_inv t [] h).2.1

/-- C4 (counterexample): a `nav` whose only content is a `ul` with the same
normalized text is itself a pair of matched elements with identical
fingerprints; the stage keeps the first (the `nav`) but removes the `ul`
from inside it, so the survivor does not keep its content intact. -/
theorem C4_counterexample :
    fpOf [Node.elem "ul" [] [Node.text "a"]] = fpOf [Node.text "a"]
    ∧ pruneNavList [Node.elem "nav" [] [Node.elem "ul" [] [Node.text "a"]]]
        = [Node.elem "nav" [] []]
    ∧ [Node.elem "nav" [] []]
        ≠ [Node.elem "nav" [] [Node.elem "ul" [] [Node.text "a"]]] := by
  refine ⟨?_, ?_, by decide⟩
  · simp [fpOf, wsSubOne, wsSubAux, pyLower, getTextStrip, textFragments,
      pyStrip, pyJoin, isPySpace]
  · simp [pruneNavList, pruneList, collectSeen, navTags, fpOf, wsSubOne, wsSubAux,
      pyLower, getTextStrip, textFragments, pyStrip, pyJoin, isPySpace]

/-- C4 (witness): two sibling `nav` menus with identical text collapse to
the first, kept intact, with distinct surviving fingerprints. -/
theorem C4_witness :
    pruneNavList
        [Node.elem "nav" [] [Node.text "home"], Node.elem "nav" [] [Node.text "home"]]
      = (pruneSpecList []
          [Node.elem "nav" [] [Node.text "home"], Node.elem "nav" [] [Node.text "home"]]).2
    ∧ (matchedFps (pruneNavList
        [Node.elem "nav" [] [Node.text "home"], Node.elem "nav" [] [Node.text "home"]])).Nodup :=
  C4_theorem
    [Node.elem "nav" [] [Node.text "home"], Node.elem "nav" [] [Node.text "home"]]
    (by simp [noNestedNav, navFree, navTags])

/-! ### C6: idempotence machinery -/

theorem topDownConv_append (trig : Node → Bool) (conv : Node → Node)
    (xs ys : List Node) :
    topDownConv trig conv (xs ++ ys)
      = topDownConv trig conv xs ++ topDownConv trig conv ys := by
  induction xs with
  | nil => simp [topDownConv]
  | cons c rest ih =>
      cases c with
      | elem n a cs =>
          simp only [List.cons_append, topDownConv]
          split <;> simp [ih]
      | text s => simp [topDownConv, ih]
      | comment s => simp [topDownConv, ih]

/-- Induction principle for forests of nodes: the element case gets
hypotheses for the children and the tail. -/
theorem forest_induction (motive : List Node → Prop)
    (h1 : motive [])
    (h2 : ∀ n a cs rest, motive cs → motive rest → motive (.elem n a cs :: rest))
    (h3 : ∀ s rest, motive rest → motive (.text s :: rest))
    (h4 : ∀ s rest, motive rest → motive (.comment s :: rest)) :
    ∀ t : List Node, motive t
  | [] => h1
  | .elem n a cs :: rest =>
      h2 n a cs rest (forest_induction motive h1 h2 h3 h4 cs)
        (forest_induction motive h1 h2 h3 h4 rest)
  | .text s :: rest => h3 s rest (forest_induction motive h1 h2 h3 h4 rest)
  | .comment s :: rest => h4 s rest (forest_induction motive h1 h2 h3 h4 rest)
termination_by t => sizeOf t

theorem allNotTrig_conv_id (trig : Node → Bool) (conv : Node → Node) :
    ∀ t : List Node, allNotTrig trig t = true → topDownConv trig conv t = t := by
  intro t
  induction t using forest_induction with
  | h1 => intro _; simp [topDownConv]
  | h2 n a cs rest ih1 ih2 =>
      intro h
      simp only [allNotTrig, Bool.and_eq_true, Bool.not_eq_true'] at h
      simp only [topDownConv, h.1.1, Bool.false_eq_true, if_false]
      rw [ih1 h.1.2, ih2 h.2]
  | h3 s rest ih =>
      intro h
      simp only [allNotTrig] at h
      simp only [topDownConv]
      rw [ih h]
  | h4 s rest ih =>
      intro h
      simp only [allNotTrig] at h
      simp only [topDownConv]
      rw [ih h]

theorem topDownConv_idem (trig : Node → Bool) (conv : Node → Node)
    (hconv : ∀ n a cs, trig (.elem n a cs) = true →
      topDownConv trig conv [conv (.elem n a cs)] = [conv (.elem n a cs)])
    (hstable : ∀ n a cs, trig (.elem n a cs) = false →
      trig (.elem n a (topDownConv trig conv cs)) = false) :
    ∀ t : List Node,
      topDownConv trig conv (topDownConv trig conv t) = topDownConv trig conv t := by
  intro t
  induction t using forest_induction with
  | h1 => simp [topDownConv]
  | h2 n a cs rest ih1 ih2 =>
      by_cases htr : trig (.elem n a cs) = true
      · simp only [topDownConv, htr, if_pos]
        have hsplit : conv (.elem n a cs) :: topDownConv trig conv rest
            = [conv (.elem n a cs)] ++ topDownConv trig conv rest := rfl
        rw [hsplit, topDownConv_append, hconv n a cs htr, ih2]
      · have htr' : trig (.elem n a cs) = false := by
          revert htr; cases trig (.elem n a cs) <;> simp
        simp only [topDownConv, htr', Bool.false_eq_true, if_false]
        simp only [topDownConv, hstable n a cs htr', Bool.false_eq_true, if_false]
        rw [ih1, ih2]
  | h3 s rest ih =>
      simp only [topDownConv]
      rw [ih]
  | h4 s rest ih =>
      simp only [topDownConv]
      rw [ih]

/-! #### strip_out_non_structural_nodes is idempotent -/

theorem removeComments_commentFree (t : List Node) :
    commentFree (removeComments t) = true := by
  induction t using removeComments.induct with
  | case1 => simp [removeComments, commentFree]
  | case2 s rest ih => simpa [removeComments, commentFree] using ih
  | case3 n a cs rest ih1 ih2 =>
      simp [removeComments, commentFree, ih1, ih2]
  | case4 s rest ih => simpa [removeComments, commentFree] using ih

theorem commentFree_removeComments_id (t : List Node)
    (h : commentFree t = true) : removeComments t = t := by
  induction t using removeComments.induct with
  | case1 => simp [removeComments]
  | case2 s rest ih => simp [commentFree] at h
  | case3 n a cs rest ih1 ih2 =>
      simp only [commentFree, Bool.and_eq_true] at h
      simp [removeComments, ih1 h.1, ih2 h.2]
  | case4 s rest ih =>
      simp only [commentFree] at h
      simp [removeComments, ih h]

theorem removeNonStructuralTags_commentFree (t : List Node)
    (h : commentFree t = true) :
    commentFree (removeNonStructuralTags t) = true := by
  induction t using forest_induction with
  | h1 => simp [removeNonStructuralTags, commentFree]
  | h2 n a cs rest ih1 ih2 =>
      simp only [commentFree, Bool.and_eq_true] at h
      simp only [removeNonStructuralTags]
      by_cases hns : nonStructuralTags.contains n = true
      · rw [if_pos hns]
        exact ih2 h.2
      · rw [if_neg hns]
        simp only [commentFree, Bool.and_eq_true]
        exact ⟨ih1 h.1, ih2 h.2⟩
  | h3 s rest ih =>
      simp only [commentFree] at h
      simp only [removeNonStructuralTags, commentFree]
      exact ih h
  | h4 s rest ih => simp [commentFree] at h

theorem removeNonStructuralTags_nsTagFree (t : List Node) :
    nsTagFree (removeNonStructuralTags t) = true := by
  induction t using forest_induction with
  | h1 => simp [removeNonStructuralTags, nsTagFree]
  | h2 n a cs rest ih1 ih2 =>
      simp only [removeNonStructuralTags]
      by_cases hns : nonStructuralTags.contains n = true
      · rw [if_pos hns]
        exact ih2
      · rw [if_neg hns]
        simp only [nsTagFree, Bool.and_eq_true, Bool.not_eq_true']
        refine ⟨⟨?_, ih1⟩, ih2⟩
        revert hns
        cases nonStructuralTags.contains n <;> simp
  | h3 s rest ih =>
      simp only [removeNonStructuralTags, nsTagFree]
      exact ih
  | h4 s rest ih =>
      simp only [removeNonStructuralTags, nsTagFree]
      exact ih

theorem nsTagFree_removeNonStructuralTags_id (t : List Node)
    (h : nsTagFree t = true) : removeNonStructuralTags t = t := by
  induction t using forest_induction with
  | h1 => simp [removeNonStructuralTags]
  | h2 n a cs rest ih1 ih2 =>
      simp only [nsTagFree, Bool.and_eq_true, Bool.not_eq_true'] at h
      simp only [removeNonStructuralTags]
      rw [if_neg (by rw [h.1.1]; simp)]
      rw [ih1 h.1.2, ih2 h.2]
  | h3 s rest ih =>
      simp only [nsTagFree] at h
      simp only [removeNonStructuralTags]
      rw [ih h]
  | h4 s rest ih =>
      simp only [nsTagFree] at h
      simp only [removeNonStructuralTags]
      rw [ih h]

theorem stripNonStructural_idem (t : List Node) :
    stripNonStructuralList (stripNonStructuralList t) = stripNonStructuralList t := by
  unfold stripNonStructuralList
  rw [commentFree_removeComments_id _
    (removeNonStructuralTags_commentFree _ (removeComments_commentFree t))]
  rw [nsTagFree_removeNonStructuralTags_id _
    (removeNonStructuralTags_nsTagFree (removeComments t))]

/-! #### simplify_attributes is idempotent -/

theorem setAttr_setAttr (l : List (String × AttrVal)) (k : String) (v w : AttrVal) :
    setAttr (setAttr l k v) k w = setAttr l k w := by
  induction l with
  | nil => rfl
  | cons p rest ih =>
      by_cases hp : p.1 = k <;> simp [setAttr, hp] at ih ⊢ <;> exact ih

theorem simplifyKept_of_allowed (a : List (String × AttrVal))
    (h : attrsAllowed a = true) : simplifyKept a = a := by
  unfold simplifyKept
  apply List.filter_eq_self.mpr
  intro p hp
  simp only [attrsAllowed, List.all_eq_true] at h
  exact h p hp

theorem simplifyKept_idem (a : List (String × AttrVal)) :
    simplifyKept (simplifyKept a) = simplifyKept a :=
  simplifyKept_of_allowed _ (attrsAllowed_simplifyKept a)

theorem simplifyOne_of_class_list (b : List (String × AttrVal)) (ts : List String)
    (h : getAttr (simplifyKept b) "class" = some (AttrVal.list ts)) :
    simplifyAttrsOne b
      = if ts.length > 6 then
          setAttr (simplifyKept b) "class" (AttrVal.list (ts.take 6 ++ ["…"]))
        else simplifyKept b := by
  unfold simplifyAttrsOne
  rw [h]

theorem simplifyOne_of_other (b : List (String × AttrVal))
    (h : ∀ ts, getAttr (simplifyKept b) "class" ≠ some (AttrVal.list ts)) :
    simplifyAttrsOne b = simplifyKept b := by
  unfold simplifyAttrsOne
  cases hg : getAttr (simplifyKept b) "class" with
  | none => rfl
  | some v =>
      cases v with
      | str s => rfl
      | list ts => exact absurd hg (h ts)

theorem simplifyOne_idem (a : List (String × AttrVal)) :
    simplifyAttrsOne (simplifyAttrsOne a) = simplifyAttrsOne a := by
  have hkept2 : simplifyKept (simplifyAttrsOne a) = simplifyAttrsOne a :=
    simplifyKept_of_allowed _ (attrsAllowed_simplifyOne a)
  cases h : getAttr (simplifyKept a) "class" with
  | none =>
      have ha : simplifyAttrsOne a = simplifyKept a :=
        simplifyOne_of_other a (fun ts hq => by rw [h] at hq; cases hq)
      rw [ha]
      rw [simplifyOne_of_other (simplifyKept a)
        (fun ts hq => by rw [simplifyKept_idem, h] at hq; cases hq)]
      exact simplifyKept_idem a
  | some v =>
      cases v with
      | str s =>
          have ha : simplifyAttrsOne a = simplifyKept a :=
            simplifyOne_of_other a (fun ts hq => by rw [h] at hq; simp at hq)
          rw [ha]
          rw [simplifyOne_of_other (simplifyKept a)
            (fun ts hq => by rw [simplifyKept_idem, h] at hq; simp at hq)]
          exact simplifyKept_idem a
      | list ts =>
          by_cases h6 : ts.length > 6
          · have ha : simplifyAttrsOne a
                = setAttr (simplifyKept a) "class" (AttrVal.list (ts.take 6 ++ ["…"])) := by
              rw [simplifyOne_of_class_list a ts h, if_pos h6]
            have hga : getAttr (simplifyKept (simplifyAttrsOne a)) "class"
                = some (AttrVal.list (ts.take 6 ++ ["…"])) := by
              rw [hkept2, ha]
              exact getAttr_setAttr _ _ _ (by rw [h]; rfl)
            have hlen : (ts.take 6).length = 6 := by
              simp [List.length_take]
              omega
            have htake : (ts.take 6 ++ ["…"]).take 6 = ts.take 6 := by
              rw [List.take_append_of_le_length (by omega)]
              exact List.take_of_length_le (by omega)
            rw [simplifyOne_of_class_list (simplifyAttrsOne a) _ hga]
            rw [if_pos (by simp [hlen]), hkept2, htake, ha, setAttr_setAttr]
          · have ha : simplifyAttrsOne a = simplifyKept a := by
              rw [simplifyOne_of_class_list a ts h, if_neg h6]
            rw [ha]
            rw [simplifyOne_of_class_list (simplifyKept a) ts
              (by rw [simplifyKept_idem, h])]
            rw [if_neg h6]
            exact simplifyKept_idem a

theorem simplifyAttributesList_idem (t : List Node) :
    simplifyAttributesList (simplifyAttributesList t) = simplifyAttributesList t := by
  induction t using forest_induction with
  | h1 => simp [simplifyAttributesList]
  | h2 n a cs rest ih1 ih2 =>
      simp only [simplifyAttributesList]
      rw [simplifyOne_idem, ih1, ih2]
  | h3 s rest ih =>
      simp only [simplifyAttributesList]
      rw [ih]
  | h4 s rest ih =>
      simp only [simplifyAttributesList]
      rw [ih]

/-! #### collapse_deeply_nested_container_with_one_child is idempotent -/

theorem collapseList_append (xs ys : List Node) :
    collapseList (xs ++ ys) = collapseList xs ++ collapseList ys := by
  induction xs using forest_induction with
  | h1 => simp [collapseList]
  | h2 n a cs rest ih1 ih2 =>
      simp only [List.cons_append, collapseList]
      split <;> simp [ih2, List.append_assoc]
  | h3 s rest ih => simp [collapseList, ih]
  | h4 s rest ih => simp [collapseList, ih]

theorem countElem_collapse (t : List Node) :
    countElemChildren (collapseList t) = countElemChildren t := by
  induction t using forest_induction with
  | h1 => simp [collapseList]
  | h2 n a cs rest ih1 ih2 =>
      simp only [collapseList]
      by_cases hp : collapsePred n a cs = true
      · rw [if_pos hp]
        have hcs : countElemChildren cs = 1 := by
          simp only [collapsePred, Bool.and_eq_true, decide_eq_true_eq] at hp
          exact hp.1.1
        simp only [countElemChildren] at hcs
        simp only [countElemChildren, List.countP_append, List.countP_cons] at ih1 ih2 ⊢
        simp [isElemB, ih1, ih2, hcs]
        omega
      · rw [if_neg hp]
        simp only [countElemChildren, List.countP_cons] at ih2 ⊢
        simp [isElemB, ih2]
  | h3 s rest ih =>
      simp only [collapseList]
      simp only [countElemChildren, List.countP_cons] at ih ⊢
      simp [isElemB, ih]
  | h4 s rest ih =>
      simp only [collapseList]
      simp only [countElemChildren, List.countP_cons] at ih ⊢
      simp [isElemB, ih]

theorem collapsePred_collapse (n : String) (a : List (String × AttrVal))
    (cs : List Node) :
    collapsePred n a (collapseList cs) = collapsePred n a cs := by
  simp [collapsePred, countElem_collapse]

theorem collapseList_idem (t : List Node) :
    collapseList (collapseList t) = collapseList t := by
  induction t using forest_induction with
  | h1 => simp [collapseList]
  | h2 n a cs rest ih1 ih2 =>
      simp only [collapseList]
      by_cases hp : collapsePred n a cs = true
      · rw [if_pos hp, collapseList_append, ih1, ih2]
      · rw [if_neg hp]
        simp only [collapseList]
        rw [if_neg (fun hq => hp (by rwa [collapsePred_collapse] at hq))]
        rw [ih1, ih2]
  | h3 s rest ih =>
      simp only [collapseList]
      rw [ih]
  | h4 s rest ih =>
      simp only [collapseList]
      rw [ih]

/-! #### the conversion stages are idempotent -/

theorem topDownConv_pre_fixed (trig : Node → Bool) (conv : Node → Node)
    (a2 : List (String × AttrVal)) (s : String)
    (h : trig (.elem "pre" a2 [.text s]) = false) :
    topDownConv trig conv [.elem "pre" a2 [.text s]]
      = [.elem "pre" a2 [.text s]] := by
  simp [topDownConv, h]

theorem filterPre_cons_elem (p : Node → Bool) (n : String)
    (a : List (String × AttrVal)) (cs rest : List Node) :
    (elemsPre (.elem n a cs :: rest)).filter p
      = (if p (.elem n a cs) = true then [Node.elem n a cs] else [])
          ++ ((elemsPre cs).filter p ++ (elemsPre rest).filter p) := by
  simp only [elemsPre, List.filter_cons, List.filter_append]
  split <;> simp

theorem filterPre_cons_other (p : Node → Bool) (t : Node) (rest : List Node)
    (h : ∀ n a cs, t = Node.elem n a cs → False) :
    (elemsPre (t :: rest)).filter p = (elemsPre rest).filter p := by
  cases t with
  | elem n a cs => cases h n a cs rfl
  | text s => simp [elemsPre]
  | comment s => simp [elemsPre]

theorem trsOf_cons_elem (n : String) (a : List (String × AttrVal))
    (cs rest : List Node) :
    trsOf (.elem n a cs :: rest)
      = (if n = "tr" then [Node.elem n a cs] else []) ++ (trsOf cs ++ trsOf rest) := by
  unfold trsOf
  rw [filterPre_cons_elem]
  simp [nodeName]

theorem trsOf_nil_allNotTrig (cs : List Node) (h : trsOf cs = []) :
    allNotTrig tableTrig cs = true := by
  induction cs using forest_induction with
  | h1 => simp [allNotTrig]
  | h2 n a cs' rest ih1 ih2 =>
      rw [trsOf_cons_elem] at h
      have hparts := List.append_eq_nil.mp h
      have hparts2 := List.append_eq_nil.mp hparts.2
      simp only [allNotTrig, Bool.and_eq_true, Bool.not_eq_true']
      refine ⟨⟨?_, ih1 hparts2.1⟩, ih2 hparts2.2⟩
      simp [tableTrig, childrenOf, hparts2.1]
  | h3 s rest ih =>
      rw [show trsOf (Node.text s :: rest) = trsOf rest by simp [trsOf, elemsPre]] at h
      simp only [allNotTrig]
      exact ih h
  | h4 s rest ih =>
      rw [show trsOf (Node.comment s :: rest) = trsOf rest by simp [trsOf, elemsPre]] at h
      simp only [allNotTrig]
      exact ih h

theorem tableConv_shape (n : String) (a : List (String × AttrVal)) (cs : List Node)
    (h : tableTrig (.elem n a cs) = true) :
    ∃ s, tableConv (.elem n a cs)
      = .elem "pre" [("data-table", AttrVal.str "1")] [.text s] := by
  simp only [tableTrig, Bool.and_eq_true, Bool.not_eq_true'] at h
  cases hrows : trsOf (childrenOf (Node.elem n a cs)) with
  | nil =>
      exfalso
      rw [hrows] at h
      simp at h
  | cons r rs =>
      unfold tableConv
      rw [hrows]
      exact ⟨_, rfl⟩

theorem preserveTablesList_idem (t : List Node) :
    preserveTablesList (preserveTablesList t) = preserveTablesList t := by
  unfold preserveTablesList
  apply topDownConv_idem
  · intro n a cs htrig
    obtain ⟨s, hs⟩ := tableConv_shape n a cs htrig
    rw [hs]
    exact topDownConv_pre_fixed _ _ _ _ (by simp [tableTrig, nodeName])
  · intro n a cs h
    by_cases hn : n = "table"
    · subst hn
      have hempty : trsOf cs = [] := by
        simp only [tableTrig, nodeName, childrenOf] at h
        simp at h
        exact h
      rw [show topDownConv tableTrig tableConv cs = cs from
        allNotTrig_conv_id _ _ cs (trsOf_nil_allNotTrig cs hempty)]
      exact h
    · simp [tableTrig, nodeName, hn]

theorem findDesc_none_parts (nm n : String) (a : List (String × AttrVal))
    (cs rest : List Node) (h : findDesc nm (.elem n a cs :: rest) = none) :
    ¬(n = nm) ∧ findDesc nm cs = none ∧ findDesc nm rest = none := by
  simp only [findDesc] at h
  by_cases hn : n = nm
  · rw [if_pos hn] at h; cases h
  · rw [if_neg hn] at h
    cases hc : findDesc nm cs with
    | some e => rw [hc] at h; cases h
    | none => rw [hc] at h; exact ⟨hn, rfl, h⟩

theorem findDesc_img_allNotTrig (cs : List Node)
    (h : findDesc "img" cs = none) : allNotTrig figTrig cs = true := by
  induction cs using forest_induction with
  | h1 => simp [allNotTrig]
  | h2 n a cs' rest ih1 ih2 =>
      obtain ⟨hn, hcs, hrest⟩ := findDesc_none_parts "img" n a cs' rest h
      simp only [allNotTrig, Bool.and_eq_true, Bool.not_eq_true']
      refine ⟨⟨?_, ih1 hcs⟩, ih2 hrest⟩
      simp [figTrig, childrenOf, hcs]
  | h3 s rest ih =>
      simp only [findDesc] at h
      simp only [allNotTrig]
      exact ih h
  | h4 s rest ih =>
      simp only [findDesc] at h
      simp only [allNotTrig]
      exact ih h

theorem preserveFiguresList_idem (t : List Node) :
    preserveFiguresList (preserveFiguresList t) = preserveFiguresList t := by
  unfold preserveFiguresList
  apply topDownConv_idem
  · intro n a cs htrig
    rw [show figConv (.elem n a cs)
      = .elem "pre" [("data-figure", AttrVal.str "1")]
          [.text ("![" ++ (let cs0 := childrenOf (Node.elem n a cs);
            let img := (findDesc "img" cs0).getD (.elem "img" [] []);
            let alt := pyStrip (getStrAttr (attrsOf img) "alt" "");
            let caption0 := match findDesc "figcaption" cs0 with
              | some cap => capText (childrenOf cap)
              | none => if alt ≠ "" then alt else "";
            if caption0 = "" && alt ≠ "" then alt else caption0)
            ++ "](" ++ pyStrip (getStrAttr
              (attrsOf ((findDesc "img" cs).getD (.elem "img" [] []))) "src" "") ++ ")")]
      from rfl]
    exact topDownConv_pre_fixed _ _ _ _ (by simp [figTrig, nodeName])
  · intro n a cs h
    by_cases hn : n = "figure"
    · subst hn
      have hnone : findDesc "img" cs = none := by
        simp only [figTrig, nodeName, childrenOf] at h
        simp at h
        exact h
      rw [show topDownConv figTrig figConv cs = cs from
        allNotTrig_conv_id _ _ cs (findDesc_img_allNotTrig cs hnone)]
      exact h
    · simp [figTrig, nodeName, hn]

theorem cssRowsOf_cons_elem (n : String) (a : List (String × AttrVal))
    (cs rest : List Node) :
    cssRowsOf (.elem n a cs :: rest)
      = (if styleMatches "table-row" (.elem n a cs) = true then [Node.elem n a cs] else [])
          ++ (cssRowsOf cs ++ cssRowsOf rest) := by
  unfold cssRowsOf
  rw [filterPre_cons_elem]

theorem cssRowsOf_nil_allNotTrig (cs : List Node) (h : cssRowsOf cs = []) :
    allNotTrig cssTableTrig cs = true := by
  induction cs using forest_induction with
  | h1 => simp [allNotTrig]
  | h2 n a cs' rest ih1 ih2 =>
      rw [cssRowsOf_cons_elem] at h
      have hparts := List.append_eq_nil.mp h
      have hparts2 := List.append_eq_nil.mp hparts.2
      simp only [allNotTrig, Bool.and_eq_true, Bool.not_eq_true']
      refine ⟨⟨?_, ih1 hparts2.1⟩, ih2 hparts2.2⟩
      simp [cssTableTrig, childrenOf, hparts2.1]
  | h3 s rest ih =>
      rw [show cssRowsOf (Node.text s :: rest) = cssRowsOf rest by
        simp [cssRowsOf, elemsPre]] at h
      simp only [allNotTrig]
      exact ih h
  | h4 s rest ih =>
      rw [show cssRowsOf (Node.comment s :: rest) = cssRowsOf rest by
        simp [cssRowsOf, elemsPre]] at h
      simp only [allNotTrig]
      exact ih h

theorem cssTableConv_shape (n : String) (a : List (String × AttrVal)) (cs : List Node)
    (h : cssTableTrig (.elem n a cs) = true) :
    ∃ s, cssTableConv (.elem n a cs)
      = .elem "pre" [("data-csstable", AttrVal.str "1")] [.text s] := by
  simp only [cssTableTrig, Bool.and_eq_true, Bool.not_eq_true'] at h
  cases hrows : cssRowsOf (childrenOf (Node.elem n a cs)) with
  | nil =>
      exfalso
      rw [(hrows : cssRowsOf cs = [])] at h
      simp at h
  | cons r rs =>
      unfold cssTableConv
      rw [hrows]
      exact ⟨_, rfl⟩

theorem preserveCssTablesList_idem (t : List Node) :
    preserveCssTablesList (preserveCssTablesList t) = preserveCssTablesList t := by
  unfold preserveCssTablesList
  apply topDownConv_idem
  · intro n a cs htrig
    obtain ⟨s, hs⟩ := cssTableConv_shape n a cs htrig
    rw [hs]
    exact topDownConv_pre_fixed _ _ _ _
      (by simp [cssTableTrig, styleMatches, attrsOf, hasAttr, getAttr])
  · intro n a cs h
    by_cases hstyle : styleMatches "table" (.elem n a cs) = true
    · have hempty : cssRowsOf cs = [] := by
        simp only [cssTableTrig, childrenOf, hstyle, Bool.true_and] at h
        simp at h
        exact h
      rw [show topDownConv cssTableTrig cssTableConv cs = cs from
        allNotTrig_conv_id _ _ cs (cssRowsOf_nil_allNotTrig cs hempty)]
      exact h
    · have hsm : styleMatches "table" (.elem n a (topDownConv cssTableTrig cssTableConv cs))
          = styleMatches "table" (.elem n a cs) := by
        simp [styleMatches, attrsOf]
      simp only [cssTableTrig, hsm]
      revert hstyle
      cases styleMatches "table" (.elem n a cs) <;> simp

theorem dlLines_cons_parts (n : String) (a : List (String × AttrVal))
    (cs rest : List Node) (h : dlLines (.elem n a cs :: rest) = []) :
    ¬(n = "dt") ∧ ¬(n = "dd") ∧ dlLines rest = [] := by
  simp only [dlLines] at h
  by_cases h1 : n = "dt"
  · rw [if_pos h1] at h; cases h
  · rw [if_neg h1] at h
    by_cases h2 : n = "dd"
    · rw [if_pos h2] at h; cases h
    · rw [if_neg h2] at h
      exact ⟨h1, h2, h⟩

theorem dlLines_stage_empty (cs : List Node) (h : dlLines cs = []) :
    dlLines (topDownConv dlTrig dlConv cs) = [] := by
  induction cs using forest_induction with
  | h1 => simp [topDownConv, dlLines]
  | h2 n a cs' rest ih1 ih2 =>
      obtain ⟨h1, h2, h3⟩ := dlLines_cons_parts n a cs' rest h
      simp only [topDownConv]
      by_cases htr : dlTrig (.elem n a cs') = true
      · rw [if_pos htr]
        rw [show dlConv (.elem n a cs')
          = .elem "pre" [("data-dl", AttrVal.str "1")]
              [.text (pyRstrip (pyJoin "\n" (dlLines (childrenOf (Node.elem n a cs')))))]
          from rfl]
        simp only [dlLines, reduceCtorEq, if_neg]
        · exact ih2 h3
      · rw [if_neg htr]
        simp only [dlLines, if_neg h1, if_neg h2]
        exact ih2 h3
  | h3 s rest ih =>
      simp only [dlLines] at h
      simp only [topDownConv, dlLines]
      exact ih h
  | h4 s rest ih =>
      simp only [dlLines] at h
      simp only [topDownConv, dlLines]
      exact ih h

theorem preserveDeflistsList_idem (t : List Node) :
    preserveDeflistsList (preserveDeflistsList t) = preserveDeflistsList t := by
  unfold preserveDeflistsList
  apply topDownConv_idem
  · intro n a cs htrig
    rw [show dlConv (.elem n a cs)
      = .elem "pre" [("data-dl", AttrVal.str "1")]
          [.text (pyRstrip (pyJoin "\n" (dlLines (childrenOf (Node.elem n a cs)))))]
      from rfl]
    exact topDownConv_pre_fixed _ _ _ _ (by simp [dlTrig, nodeName])
  · intro n a cs h
    by_cases hn : n = "dl"
    · subst hn
      have hempty : dlLines cs = [] := by
        simp only [dlTrig, nodeName, childrenOf] at h
        simp at h
        exact h
      simp only [dlTrig, nodeName, childrenOf]
      rw [dlLines_stage_empty cs hempty]
      simp
    · simp [dlTrig, nodeName, hn]

theorem walkLines_cons_elem_parts (d : Nat) (o : Bool) (i : Nat) (n : String)
    (a : List (String × AttrVal)) (cs rest : List Node)
    (h : walkLines d o i (.elem n a cs :: rest) = []) :
    ¬(n = "li") ∧ walkLines d o i rest = [] := by
  simp only [walkLines] at h
  by_cases hn : n = "li"
  · rw [if_pos hn] at h
    simp at h
  · rw [if_neg hn] at h
    exact ⟨hn, h⟩

theorem walkLines_stage_empty (d : Nat) (o : Bool) (i : Nat) (cs : List Node)
    (h : walkLines d o i cs = []) :
    walkLines d o i (topDownConv listTrig listConv cs) = [] := by
  induction cs using forest_induction with
  | h1 => simp [topDownConv, walkLines]
  | h2 n a cs' rest ih1 ih2 =>
      obtain ⟨h1, h2⟩ := walkLines_cons_elem_parts d o i n a cs' rest h
      simp only [topDownConv]
      by_cases htr : listTrig (.elem n a cs') = true
      · rw [if_pos htr]
        rw [show listConv (.elem n a cs')
          = .elem "pre" [("data-list", AttrVal.str "1")]
              [.text (pyJoin "\n"
                (walkLines 0 (nodeName (Node.elem n a cs') = "ol") 1
                  (childrenOf (Node.elem n a cs'))))]
          from rfl]
        simp only [walkLines, reduceCtorEq, if_neg]
        exact ih2 h2
      · rw [if_neg htr]
        simp only [walkLines, if_neg h1]
        exact ih2 h2
  | h3 s rest ih =>
      simp only [walkLines] at h
      simp only [topDownConv, walkLines]
      exact ih h
  | h4 s rest ih =>
      simp only [walkLines] at h
      simp only [topDownConv, walkLines]
      exact ih h

theorem preserveListsList_idem (t : List Node) :
    preserveListsList (preserveListsList t) = preserveListsList t := by
  unfold preserveListsList
  apply topDownConv_idem
  · intro n a cs htrig
    rw [show listConv (.elem n a cs)
      = .elem "pre" [("data-list", AttrVal.str "1")]
          [.text (pyJoin "\n"
            (walkLines 0 (nodeName (Node.elem n a cs) = "ol") 1
              (childrenOf (Node.elem n a cs))))]
      from rfl]
    exact topDownConv_pre_fixed _ _ _ _ (by simp [listTrig, nodeName])
  · intro n a cs h
    by_cases hn : n = "ul" ∨ n = "ol"
    · have hempty : walkLines 0 (n = "ol") 1 cs = [] := by
        simp only [listTrig, nodeName, childrenOf] at h
        rcases hn with hn | hn <;> subst hn <;> simp at h <;> exact h
      simp only [listTrig, nodeName, childrenOf]
      rw [walkLines_stage_empty 0 (n = "ol") 1 cs hempty]
      simp
    · push_neg at hn
      simp [listTrig, nodeName, hn.1, hn.2]

/-- C6 (amended): parse, structural-clutter removal, attribute
simplification, single-child collapsing, and the five subtree conversions
(tables, definition lists, lists, figures, CSS tables) are idempotent — a
second consecutive run leaves the tree unchanged. -/
theorem C6_theorem :
    (∀ (parse : String → List Node) (r : Reducer),
      parse_the_full_dom_into_a_dom_tree parse (parse_the_full_dom_into_a_dom_tree parse r)
        = parse_the_full_dom_into_a_dom_tree parse r)
    ∧ (∀ t, stripNonStructuralList (stripNonStructuralList t) = stripNonStructuralList t)
    ∧ (∀ t, simplifyAttributesList (simplifyAttributesList t) = simplifyAttributesList t)
    ∧ (∀ t, collapseList (collapseList t) = collapseList t)
    ∧ (∀ t, preserveTablesList (preserveTablesList t) = preserveTablesList t)
    ∧ (∀ t, preserveDeflistsList (preserveDeflistsList t) = preserveDeflistsList t)
    ∧ (∀ t, preserveListsList (preserveListsList t) = preserveListsList t)
    ∧ (∀ t, preserveFiguresList (preserveFiguresList t) = preserveFiguresList t)
    ∧ (∀ t, preserveCssTablesList (preserveCssTablesList t) = preserveCssTablesList t) :=
  ⟨fun _ _ => rfl, stripNonStructural_idem, simplifyAttributesList_idem,
    collapseList_idem, preserveTablesList_idem, preserveDeflistsList_idem,
    preserveListsList_idem, preserveFiguresList_idem, preserveCssTablesList_idem⟩

/-- C6 (counterexample): three stages violate the idempotence claim.
Non-visual removal: a hidden container whose hidden leaf child is removed
on the first run becomes a hidden leaf itself and is removed on the second.
Duplicate pruning: removing a nested duplicate list changes the fingerprint
of its kept ancestor, so a second run over the already-pruned tree removes
a further element.  Media placeholders: a large data-URI image without
numeric dimensions becomes a placeholder with `width='auto'`, on which the
second run's `int()` raises. -/
theorem C6_counterexample :
    stripNonVisualList
        (stripNonVisualList
          [Node.elem "div" [("hidden", AttrVal.str "")]
            [Node.elem "span" [("hidden", AttrVal.str "")] []]])
      ≠ stripNonVisualList
          [Node.elem "div" [("hidden", AttrVal.str "")]
            [Node.elem "span" [("hidden", AttrVal.str "")] []]]
    ∧ pruneNavList
        (pruneNavList
          [Node.elem "ul" [] [Node.text "y"],
           Node.elem "nav" [] [Node.text "x", Node.elem "ul" [] [Node.text "y"]],
           Node.elem "nav" [] [Node.text "x"]])
      ≠ pruneNavList
          [Node.elem "ul" [] [Node.text "y"],
           Node.elem "nav" [] [Node.text "x", Node.elem "ul" [] [Node.text "y"]],
           Node.elem "nav" [] [Node.text "x"]]
    ∧ mediaStageList [Node.elem "img" [("src", AttrVal.str bigDataUri)] []]
        = .ok [autoImgPlaceholder]
    ∧ mediaStageList [autoImgPlaceholder] = .error .valueError := by
  refine ⟨?_, ?_, ?_, ?_⟩
  · have e1 : stripNonVisualList
        [Node.elem "div" [("hidden", AttrVal.str "")]
          [Node.elem "span" [("hidden", AttrVal.str "")] []]]
        = [Node.elem "div" [("hidden", AttrVal.str "")] []] := by
      simp [stripNonVisualList, stripHiddenList, emptyInlineList, isHiddenAttrs,
        hasAttr, getAttr, elemsPre, inlineTags]
    have e2 : stripNonVisualList [Node.elem "div" [("hidden", AttrVal.str "")] []]
        = [] := by
      simp [stripNonVisualList, stripHiddenList, emptyInlineList, isHiddenAttrs,
        hasAttr, getAttr, elemsPre, inlineTags]
    intro heq
    rw [e1, e2] at heq
    cases heq
  · have e1 : pruneNavList
        [Node.elem "ul" [] [Node.text "y"],
         Node.elem "nav" [] [Node.text "x", Node.elem "ul" [] [Node.text "y"]],
         Node.elem "nav" [] [Node.text "x"]]
        = [Node.elem "ul" [] [Node.text "y"], Node.elem "nav" [] [Node.text "x"],
           Node.elem "nav" [] [Node.text "x"]] := by
      simp [pruneNavList, pruneList, collectSeen, navTags, fpOf, wsSubOne, wsSubAux,
        pyLower, getTextStrip, textFragments, pyStrip, pyJoin, isPySpace]
    have e2 : pruneNavList
        [Node.elem "ul" [] [Node.text "y"], Node.elem "nav" [] [Node.text "x"],
         Node.elem "nav" [] [Node.text "x"]]
        = [Node.elem "ul" [] [Node.text "y"], Node.elem "nav" [] [Node.text "x"]] := by
      simp [pruneNavList, pruneList, collectSeen, navTags, fpOf, wsSubOne, wsSubAux,
        pyLower, getTextStrip, textFragments, pyStrip, pyJoin, isPySpace]
    intro heq
    rw [e1, e2] at heq
    exact absurd heq (by decide)
  · have hstart : pyStartsWith bigDataUri "data:image" = true := by decide
    have hlen : decide (1500 < bigDataUri.length) = true := by decide
    simp [mediaStageList, topDownConv, svgTrig, nodeName, imgPass, getStrAttr,
      getAttr, avPyStr, dimVal, hstart, hlen, autoImgPlaceholder,
      Bind.bind, Except.bind, Pure.pure, Except.pure]
  · simp [mediaStageList, topDownConv, svgTrig, nodeName, imgPass, getStrAttr,
      getAttr, avPyStr, dimVal, autoImgPlaceholder, pyStartsWith, matchLitChars,
      show pyInt "auto" = none from by decide,
      Bind.bind, Except.bind, Pure.pure, Except.pure]

/-- C1 (witness): a concrete instantiation of the amended statement — the
known prefix `["parse_the_full_dom_into_a_dom_tree"]` runs, then the
unknown name aborts the pipeline. -/
theorem C1_witness :
    isKnownStage "not_a_real_stage" = false
    ∧ runPipe (fun _ => [Node.text "x"]) ["parse_the_full_dom_into_a_dom_tree"]
        ⟨"<p>x</p>", none⟩ = (⟨"<p>x</p>", some [Node.text "x"]⟩, none)
    ∧ reduce (fun _ => [Node.text "x"]) ⟨"<p>x</p>", none⟩
        (some (["parse_the_full_dom_into_a_dom_tree"] ++ "not_a_real_stage" :: []))
        = (⟨"<p>x</p>", some [Node.text "x"]⟩, some (.unknownStage "not_a_real_stage")) :=
  ⟨rfl, rfl,
    C1_theorem (fun _ => [Node.text "x"]) "not_a_real_stage"
      ["parse_the_full_dom_into_a_dom_tree"] [] ⟨"<p>x</p>", none⟩
      ⟨"<p>x</p>", some [Node.text "x"]⟩ rfl rfl⟩

end DomReducer
